import Mathlib

/-!
Verification of the parallel job execution engine of catkin_tools
(dependency-aware scheduler, staged job runtime, stage/job model,
IO capture, GNU-make jobserver) against its natural-language
specification.

The definitions below are a shallow embedding of the Python sources:

* `src/catkin_tools/execution/executor.py` (async_job, execute_jobs)
* `src/catkin_tools/execution/jobs.py`     (Job, JobServer, JobGuard)
* `src/catkin_tools/execution/stages.py`   (CmdStage, FunStage)
* `src/catkin_tools/execution/io.py`       (IOBufferLogger, IOBufferProtocol)

External inputs of the program (child-process exit codes, bytes a child
writes to its output streams, exceptions thrown by user-supplied stage
functions) are represented as data scripted on each stage, so every
definition is executable.  The event record (`ExecutionEvent`, a tagged
payload map; `execution/events.py` is just a dict wrapper) is embedded
as a tagged union whose variants and fields are exactly the payloads
constructed at each `event_queue.put(ExecutionEvent(...))` site of the
sources.
-/

namespace CatkinExec

/-- The reason payload of an ABANDONED_JOB event, together with the
reason-specific id fields attached at the three construction sites in
`execute_jobs`. -/
inductive AbandonReason where
  | missing_deps (dep_ids : List String)
  | peer_failed (peer_job_id : String)
  | dep_failed (direct_dep_job_id : String) (dep_job_id : String)
deriving DecidableEq, Repr

/-- Execution events, one variant per `event_id` tag, with exactly the
payload fields constructed in `executor.py` / `io.py`.  (`FINISHED_STAGE`
also carries the three captured buffers in the source; those payloads are
modelled separately with the IO capture classes and are omitted here,
no claim mentions them.) -/
inductive Event where
  | job_status (pending queued active : List String)
      (completed : List (String × Bool)) (abandoned : List String)
  | queued_job (job_id : String)
  | started_job (job_id : String)
  | finished_job (job_id : String) (succeeded : Bool)
  | abandoned_job (job_id : String) (reason : AbandonReason)
  | started_stage (job_id : String) (label : String)
  | finished_stage (job_id : String) (label : String)
      (succeeded : Bool) (retcode : Int)
  | stdout_chunk (job_id : String) (label : String) (data : String)
  | stderr_chunk (job_id : String) (label : String) (data : String)
deriving DecidableEq, Repr

/-- What happens when a stage is dispatched: either the child process /
stage function finishes with a return code, or an exception is raised
during dispatch (the `except:` branches of `async_job`, which log the
traceback and force `retcode = 1`).  This is external input to the
engine, so it is scripted data on the stage. -/
inductive StageOutcome where
  | ret (retcode : Int)
  | raised (traceback : String)
deriving DecidableEq, Repr

/-- A stage of a job (`stages.py`): a label, plus the scripted external
behaviour of running it: the stdout/stderr chunks delivered while it
runs (`true` marks a stderr chunk) and its outcome. -/
structure Stage where
  label : String
  outputs : List (Bool × String)
  outcome : StageOutcome
deriving DecidableEq, Repr

/-- A Job (`execution/jobs.py`, class Job): an id, dependency ids, an
ordered list of stages and the `continue_on_failure` flag (source
default `True`). -/
structure Job where
  jid : String
  deps : List String
  stages : List Stage
  continue_on_failure : Bool
deriving DecidableEq, Repr

/-- Python dict membership test for the `completed_jobs` map
(`dep_id in completed_jobs`). -/
def dict_contains (m : List (String × Bool)) (k : String) : Bool :=
  m.any (fun p => p.1 == k)

/-- Python dict assignment `m[k] = v` on the `completed_jobs` map:
replaces in place when the key exists, otherwise appends (insertion
order is preserved, as for a Python dict). -/
def dict_set (m : List (String × Bool)) (k : String) (v : Bool) :
    List (String × Bool) :=
  if m.any (fun p => p.1 == k) then
    m.map (fun p => if p.1 == k then (k, v) else p)
  else m ++ [(k, v)]

/-- `Job.all_deps_completed` (`execution/jobs.py` lines 30-32):
`all([dep_id in completed_jobs for dep_id in self.deps])`. -/
def Job.all_deps_completed (job : Job) (completed_jobs : List (String × Bool)) :
    Bool :=
  job.deps.all (fun d => dict_contains completed_jobs d)

/-- Running one stage dispatch of `async_job`: the chunks the stage
emits become STDOUT/STDERR events (emitted by the attached
`IOBufferProtocol` / `IOBufferLogger`), and the return code is the
scripted one; when dispatch raises, `logger.err(traceback)` emits one
more STDERR event and the retcode is forced to 1. -/
def run_stage (jid : String) (s : Stage) : List Event × Int :=
  let chunk_events := s.outputs.map (fun c =>
    if c.1 then Event.stderr_chunk jid s.label c.2
    else Event.stdout_chunk jid s.label c.2)
  match s.outcome with
  | StageOutcome.ret code => (chunk_events, code)
  | StageOutcome.raised tb =>
      (chunk_events ++ [Event.stderr_chunk jid s.label tb], 1)

/-- The stage loop of `async_job` (`executor.py` lines 49-106).  The
accumulator is `all_stages_succeeded`.  Faithful to the source: the
loop breaks (skipping all remaining stages, with no events for them)
when `job.continue_on_failure and not all_stages_succeeded`; otherwise
it emits STARTED_STAGE, dispatches, computes
`stage_succeeded = (retcode == 0)`, updates the accumulator and emits
FINISHED_STAGE. -/
def async_job_stages (jid : String) (cof : Bool) :
    List Stage → Bool → List Event × Bool
  | [], acc => ([], acc)
  | s :: rest, acc =>
    if cof && !acc then ([], acc)
    else
      let r := run_stage jid s
      let stage_succeeded := r.2 == 0
      let acc' := acc && stage_succeeded
      let rec_r := async_job_stages jid cof rest acc'
      (Event.started_stage jid s.label ::
        (r.1 ++ Event.finished_stage jid s.label stage_succeeded r.2 :: rec_r.1),
       rec_r.2)

/-- `async_job` (`executor.py` lines 36-109): runs the stages of a job
in order and returns the emitted events together with
`all_stages_succeeded`. -/
def async_job (job : Job) : List Event × Bool :=
  async_job_stages job.jid job.continue_on_failure job.stages true

/-- The `split` helper of `executor.py` (lines 30-33): split an
iterable by a predicate into (matching, non-matching), preserving
order. -/
def split (cond : Job → Bool) (values : List Job) : List Job × List Job :=
  (values.filter cond, values.filter (fun v => !cond v))

/-- The scheduler state of `execute_jobs`: the five partitions.
`active_jobs` is a dict `jid → future` in the source; a Python dict
iterates in insertion order and `del` removes in place, so an
insertion-ordered list of the still-active jobs is a faithful model
(the job value stands for its future, whose eventual result is the
deterministic `async_job job`). `completed_jobs` is the insertion-
ordered dict `jid → succeeded`. -/
structure ExecutorState where
  pending_jobs : List Job
  queued_jobs : List Job
  active_jobs : List Job
  completed_jobs : List (String × Bool)
  abandoned_jobs : List Job
deriving DecidableEq, Repr

/-- The JOB_STATUS snapshot event as built at `executor.py` lines
183-189 and 267-273. -/
def status_event (st : ExecutorState) : Event :=
  Event.job_status
    (st.pending_jobs.map Job.jid)
    (st.queued_jobs.map Job.jid)
    (st.active_jobs.map Job.jid)
    st.completed_jobs
    (st.abandoned_jobs.map Job.jid)

/-- The job activation loop (`executor.py` lines 163-177):
`while len(queued_jobs) > 0 and token_generator.next() is not None`.
A token is dispensed iff `running_jobs < max_jobs`; the scheduler holds
one token per active job, so with the pipe otherwise untouched this is
`active_jobs.length < max_jobs` (the load/memory admission predicates
depend on host state outside the embedding and are taken as passing).
Each admitted job is popped from the head of the queue and produces a
STARTED_JOB event followed by the scheduler's extra
STARTED_STAGE 'activate' event.  Returns the remaining queue, the new
active list, and the emitted events. -/
def activate_loop (max_jobs : Nat) :
    List Job → List Job → List Job × List Job × List Event
  | [], active => ([], active, [])
  | j :: rest, active =>
    if active.length < max_jobs then
      let r := activate_loop max_jobs rest (active ++ [j])
      (r.1, r.2.1,
        Event.started_job j.jid :: Event.started_stage j.jid "activate" :: r.2.2)
    else (j :: rest, active, [])

/-- Length bookkeeping for `split`: the two parts partition the input. -/
theorem split_length (cond : Job → Bool) (l : List Job) :
    (split cond l).1.length + (split cond l).2.length = l.length := by
  induction l with
  | nil => rfl
  | cons x xs ih =>
    simp only [split] at ih ⊢
    by_cases h : cond x <;> simp [List.filter_cons, h] <;> omega

/-- The transitive-abandonment worklist loop of `execute_jobs`
(`executor.py` lines 227-252), run when a job fails under
`continue_on_failure=true, continue_without_deps=false`.  The worklist
`unhandled_abandoned_job_ids` starts as `[failed_id]`; each round pops
the head id, splits the pending list into the jobs that list that id in
their deps (newly abandoned, each emitting an
ABANDONED_JOB/DEP_FAILED event with `direct_dep_job_id` = the popped id
and `dep_job_id` = the originally failed job) and the rest, and appends
the new jobs' ids to the worklist.  Returns (newly abandoned jobs in
emission order, their events, remaining pending jobs). -/
def abandon_deps_loop (failed_id : String) :
    List String → List Job → List Job × List Event × List Job
  | [], pending => ([], [], pending)
  | aid :: rest, pending =>
    let parts := split (fun j => j.deps.contains aid) pending
    let evs := parts.1.map (fun j =>
      Event.abandoned_job j.jid (AbandonReason.dep_failed aid failed_id))
    let r := abandon_deps_loop failed_id (rest ++ parts.1.map Job.jid) parts.2
    (parts.1 ++ r.1, evs ++ r.2.1, r.2.2)
termination_by wl pending => wl.length + 2 * pending.length
decreasing_by
  simp only [split, List.length_append, List.length_map, List.length_cons]
  have h := List.length_eq_length_filter_add (l := pending)
    (fun j => j.deps.contains aid)
  omega

/-- Handling one completed job `(job_id, succeeded)` in the wait phase
(`executor.py` lines 195-264): release the token, emit FINISHED_JOB,
delete from `active_jobs`, record in `completed_jobs`, apply the
failure-propagation policy, then promote every pending job whose deps
are all completed.  Returns the new state and the emitted events
(FINISHED_JOB, then the ABANDONED_JOB events, then the QUEUED_JOB
events, in source emission order). -/
def handle_completion (continue_on_failure continue_without_deps : Bool)
    (st : ExecutorState) (job_id : String) (succeeded : Bool) :
    ExecutorState × List Event :=
  let active' := st.active_jobs.filter (fun j => !(j.jid == job_id))
  let completed' := dict_set st.completed_jobs job_id succeeded
  let fr :=
    if succeeded then
      (st.queued_jobs, st.pending_jobs, st.abandoned_jobs, ([] : List Event))
    else if !continue_on_failure then
      let new_abandoned := st.queued_jobs ++ st.pending_jobs
      (([] : List Job), ([] : List Job), st.abandoned_jobs ++ new_abandoned,
        new_abandoned.map (fun j =>
          Event.abandoned_job j.jid (AbandonReason.peer_failed job_id)))
    else if !continue_without_deps then
      let r := abandon_deps_loop job_id [job_id] st.pending_jobs
      (st.queued_jobs, r.2.2, st.abandoned_jobs ++ r.1, r.2.1)
    else
      (st.queued_jobs, st.pending_jobs, st.abandoned_jobs, ([] : List Event))
  let promo := split (fun j => j.all_deps_completed completed') fr.2.1
  ({ pending_jobs := promo.2
    , queued_jobs := fr.1 ++ promo.1
    , active_jobs := active'
    , completed_jobs := completed'
    , abandoned_jobs := fr.2.2.1 },
   Event.finished_job job_id succeeded ::
     (fr.2.2.2 ++ promo.1.map (fun j => Event.queued_job j.jid)))

/-- The wait phase (`executor.py` lines 180-264):
`for job_completed in asyncio.as_completed(list(active_jobs.values()))`
iterates over a snapshot of the active futures, handling each one as it
completes.  Each iteration first emits a JOB_STATUS snapshot, then the
events the job's coroutine emitted while running (the model linearizes
each coroutine's run into the window just before its completion is
collected, a schedule the cooperative loop admits; `as_completed`'s
completion order is unspecified and is resolved to snapshot order),
then the events of `handle_completion`. -/
def process_completions (continue_on_failure continue_without_deps : Bool) :
    List Job → ExecutorState → ExecutorState × List Event
  | [], st => (st, [])
  | j :: rest, st =>
    let run := async_job j
    let hc := handle_completion continue_on_failure continue_without_deps
      st j.jid run.2
    let r := process_completions continue_on_failure continue_without_deps
      rest hc.1
    (r.1, status_event st :: (run.1 ++ hc.2 ++ r.2))

/-- The main loop of `execute_jobs` (`executor.py` lines 160-264),
with an explicit fuel parameter: `none` means the loop did not exit
within `fuel` iterations.  Each iteration checks
`len(active) + len(queued) + len(pending) > 0`, runs the activation
loop, and then processes the completions of the snapshot of active
jobs. -/
def main_loop (max_jobs : Nat) (continue_on_failure continue_without_deps : Bool) :
    Nat → ExecutorState → Option (ExecutorState × List Event)
  | 0, _ => none
  | fuel + 1, st =>
    if st.active_jobs.length + st.queued_jobs.length + st.pending_jobs.length = 0
    then some (st, [])
    else
      let a := activate_loop max_jobs st.queued_jobs st.active_jobs
      let st1 : ExecutorState :=
        { st with queued_jobs := a.1, active_jobs := a.2.1 }
      let p := process_completions continue_on_failure continue_without_deps
        st1.active_jobs st1
      match main_loop max_jobs continue_on_failure continue_without_deps fuel p.1 with
      | none => none
      | some (stF, evs3) => some (stF, a.2.2 ++ p.2 ++ evs3)

/-- `execute_jobs` (`executor.py` lines 112-275).  Initialization:
jobs with a dep outside the job map are immediately abandoned with
MISSING_DEPS (payload listing the unknown ids); the remainder is split
into `queued` (no deps) and `pending`.  Then the main loop runs; on
exit one final JOB_STATUS is emitted and the result is
`all(completed_jobs.values())`.  `none` means the main loop did not
terminate within `fuel` iterations. -/
def execute_jobs (max_jobs : Nat) (fuel : Nat) (jobs : List Job)
    (continue_on_failure continue_without_deps : Bool) :
    Option (List Event × Bool) :=
  let ids := jobs.map Job.jid
  let s1 := split (fun j => j.deps.all (fun d => ids.contains d)) jobs
  let missing_events := s1.2.map (fun j =>
    Event.abandoned_job j.jid
      (AbandonReason.missing_deps (j.deps.filter (fun d => !ids.contains d))))
  let s2 := split (fun j => j.deps.length == 0) s1.1
  let st0 : ExecutorState :=
    { pending_jobs := s2.2
      , queued_jobs := s2.1
      , active_jobs := []
      , completed_jobs := []
      , abandoned_jobs := s1.2 }
  match main_loop max_jobs continue_on_failure continue_without_deps fuel st0 with
  | none => none
  | some (stF, evs) =>
      some (missing_events ++ evs ++ [status_event stF],
        stF.completed_jobs.all (fun p => p.2))

/-! ## Claim C1 -/

/-- A job with `continue_on_failure = false` whose first stage exits 1
and whose second stage would exit 0. -/
def c1_job_stop : Job :=
  { jid := "j", deps := []
    , stages :=
      [ { label := "s1", outputs := [], outcome := StageOutcome.ret 1 }
      , { label := "s2", outputs := [], outcome := StageOutcome.ret 0 } ]
    , continue_on_failure := false }

/-- The same job with `continue_on_failure = true`. -/
def c1_job_go : Job :=
  { c1_job_stop with continue_on_failure := true }

/-- C1: the claim states that with `continue_on_failure = false` the
job runtime starts no stage after a failing one, and with
`continue_on_failure = true` every stage is attempted.  The code at
`executor.py` line 54 (`if job.continue_on_failure and not
all_stages_succeeded: break`) has the flag inverted: with the flag
false the runtime attempts the second stage after the first fails
(emitting its STARTED_STAGE and FINISHED_STAGE events), and with the
flag true it skips it.  The job result is failure in both runs. -/
theorem c1_continue_on_failure_is_inverted :
    async_job c1_job_stop =
      ([ Event.started_stage "j" "s1", Event.finished_stage "j" "s1" false 1
       , Event.started_stage "j" "s2", Event.finished_stage "j" "s2" true 0 ]
       , false)
    ∧ async_job c1_job_go =
      ([ Event.started_stage "j" "s1", Event.finished_stage "j" "s1" false 1 ]
       , false) := by
  constructor <;> rfl

/-! ## Claim C2 -/

/-- C2's scenario: the single submitted job `X(deps=[Y])` with no job
`Y` submitted. -/
def c2_jobX : Job :=
  { jid := "X", deps := ["Y"]
    , stages := [{ label := "sX", outputs := [], outcome := StageOutcome.ret 0 }]
    , continue_on_failure := true }

/-- C2 counterexample: on the claim's own scenario (submit only
`X(deps=[Y])`), `execute_jobs` returns `all(completed_jobs.values())`
over an empty dict, which is `true` — not `false` as the claim
states. -/
theorem c2_counterexample_returns_true :
    execute_jobs 4 1 [c2_jobX] false false
    = some ([ Event.abandoned_job "X" (AbandonReason.missing_deps ["Y"])
            , Event.job_status [] [] [] [] ["X"] ], true) := by
  rfl

/-- C2 (amended): when the submitted set is the single job `x` with
`deps = [y]`, `y ≠ x`, the whole emitted trace is exactly one
ABANDONED_JOB event with job_id `x`, reason MISSING_DEPS and dep_ids
`[y]`, followed by the final JOB_STATUS snapshot — in particular no
STARTED_JOB is emitted — and `execute_jobs` returns `true` (not
`false` as the claim states): `completed_jobs` is empty and
`all(completed_jobs.values())` is vacuously true. -/
theorem c2_missing_dep_trace (x y : String) (stages : List Stage)
    (cof_job : Bool) (max_jobs fuel : Nat) (cof cwd : Bool)
    (hxy : y ≠ x) (hfuel : 1 ≤ fuel) :
    execute_jobs max_jobs fuel
      [{ jid := x, deps := [y], stages := stages
         , continue_on_failure := cof_job }] cof cwd
    = some ([ Event.abandoned_job x (AbandonReason.missing_deps [y])
            , Event.job_status [] [] [] [] [x] ], true) := by
  obtain ⟨k, rfl⟩ : ∃ k, fuel = k + 1 := ⟨fuel - 1, by omega⟩
  simp [execute_jobs, split, main_loop, status_event, hxy]

/-- Witness for `c2_missing_dep_trace` at a concrete input. -/
theorem c2_missing_dep_trace_witness :
    execute_jobs 8 2
      [{ jid := "X", deps := ["Y"]
         , stages := [{ label := "sX", outputs := [], outcome := StageOutcome.ret 0 }]
         , continue_on_failure := true }] true true
    = some ([ Event.abandoned_job "X" (AbandonReason.missing_deps ["Y"])
            , Event.job_status [] [] [] [] ["X"] ], true) :=
  c2_missing_dep_trace "X" "Y" _ true 8 2 true true (by decide) (by decide)

/-! ## Claim C3 -/

/-- C3's failing input, job 1: `X(deps=[Y])` with no `Y` submitted, so
`X` is abandoned with MISSING_DEPS at initialization. -/
def c3_jobX : Job :=
  { jid := "X", deps := ["Y"]
    , stages := [{ label := "sX", outputs := [], outcome := StageOutcome.ret 0 }]
    , continue_on_failure := true }

/-- C3's failing input, job 2: `Z(deps=[X])`, which depends on the
abandoned job `X`. -/
def c3_jobZ : Job :=
  { jid := "Z", deps := ["X"]
    , stages := [{ label := "sZ", outputs := [], outcome := StageOutcome.ret 0 }]
    , continue_on_failure := true }

/-- The scheduler state right after initialization on
`[c3_jobX, c3_jobZ]`: `Z` pending, `X` abandoned, everything else
empty. -/
def c3_state : ExecutorState :=
  { pending_jobs := [c3_jobZ], queued_jobs := [], active_jobs := []
    , completed_jobs := [], abandoned_jobs := [c3_jobX] }

/-- From `c3_state` the main loop never makes progress: `Z` is pending
(so the loop guard stays true), nothing is queued or active (so the
activation and wait phases do nothing), and no completion can ever
promote `Z`.  Every fuel bound is exhausted. -/
theorem c3_stuck_loop (fuel : Nat) :
    main_loop 4 false false fuel c3_state = none := by
  induction fuel with
  | zero => rfl
  | succ k ih =>
      rw [main_loop]
      simp only [show (c3_state.active_jobs.length + c3_state.queued_jobs.length
        + c3_state.pending_jobs.length = 0) = False by decide, if_false]
      have hstep : (process_completions false false
          (activate_loop 4 c3_state.queued_jobs c3_state.active_jobs).2.1
          { c3_state with
            queued_jobs := (activate_loop 4 c3_state.queued_jobs c3_state.active_jobs).1
            , active_jobs := (activate_loop 4 c3_state.queued_jobs c3_state.active_jobs).2.1 }).1
          = c3_state := by rfl
      rw [hstep, ih]

/-- C3: the claim states the main loop terminates for every acyclic
input, including inputs where a job depends on a job abandoned for
MISSING_DEPS.  The code livelocks on such inputs: with
`[X(deps=[Y]), Z(deps=[X])]` and no `Y`, `X` is abandoned at
initialization but `Z` stays pending forever — the loop guard
`len(active)+len(queued)+len(pending) > 0` remains true while the
activation loop (empty queue) and the wait phase
(`as_completed` over an empty set) do nothing, so the loop never
exits, for any number of iterations. -/
theorem c3_scheduler_livelocks_on_abandoned_dep (fuel : Nat) :
    execute_jobs 4 fuel [c3_jobX, c3_jobZ] false false = none := by
  show (match main_loop 4 false false fuel c3_state with
    | none => none
    | some (stF, evs) => some (_ ++ evs ++ [status_event stF],
        stF.completed_jobs.all (fun p => p.2))) = none
  rw [c3_stuck_loop]

/-! ## Claim C5 -/

/-- Recognizer for STARTED_JOB events. -/
def is_started_job : Event → Bool
  | Event.started_job _ => true
  | _ => false

/-- A scripted output chunk becomes a STDOUT or STDERR event, never a
STARTED_JOB. -/
theorem chunk_event_not_started (jid lbl : String) (c : Bool × String) :
    is_started_job (if c.1 then Event.stderr_chunk jid lbl c.2
      else Event.stdout_chunk jid lbl c.2) = false := by
  by_cases h : c.1 = true <;> simp [h, is_started_job]

/-- The events a stage dispatch emits are only STDOUT/STDERR chunks,
never STARTED_JOB. -/
theorem run_stage_no_started_job (jid : String) (s : Stage) :
    ∀ e ∈ (run_stage jid s).1, is_started_job e = false := by
  intro e he
  unfold run_stage at he
  cases hs : s.outcome with
  | ret code =>
      rw [hs] at he
      simp only [List.mem_map] at he
      obtain ⟨c, _, hc⟩ := he
      rw [← hc]
      exact chunk_event_not_started jid s.label c
  | raised tb =>
      rw [hs] at he
      simp only [List.mem_append, List.mem_map, List.mem_singleton] at he
      rcases he with ⟨c, _, hc⟩ | hc
      · rw [← hc]
        exact chunk_event_not_started jid s.label c
      · rw [hc]; rfl

/-- One-step unfolding of the stage loop when it does not break. -/
theorem async_job_stages_cons (jid : String) (cof : Bool) (s : Stage)
    (rest : List Stage) (acc : Bool) (hb : (cof && !acc) = false) :
    async_job_stages jid cof (s :: rest) acc =
      (Event.started_stage jid s.label ::
        ((run_stage jid s).1 ++
          Event.finished_stage jid s.label ((run_stage jid s).2 == 0)
            (run_stage jid s).2 ::
          (async_job_stages jid cof rest (acc && ((run_stage jid s).2 == 0))).1),
       (async_job_stages jid cof rest (acc && ((run_stage jid s).2 == 0))).2) := by
  rw [async_job_stages, hb]
  rfl

/-- The job runtime never emits STARTED_JOB (only the scheduler
does). -/
theorem async_job_stages_no_started_job (jid : String) (cof : Bool) :
    ∀ (stages : List Stage) (acc : Bool),
      ∀ e ∈ (async_job_stages jid cof stages acc).1, is_started_job e = false := by
  intro stages
  induction stages with
  | nil => intro acc e he; simp [async_job_stages] at he
  | cons s rest ih =>
      intro acc e he
      by_cases hb : (cof && !acc) = true
      · rw [async_job_stages, if_pos hb] at he
        simp at he
      · rw [async_job_stages_cons jid cof s rest acc
          (Bool.not_eq_true _ ▸ hb)] at he
        simp only [List.mem_cons, List.mem_append] at he
        rcases he with h | h | h | h
        · rw [h]; rfl
        · exact run_stage_no_started_job jid s e h
        · rw [h]; rfl
        · exact ih _ e h

/-- The transitive-abandonment loop does nothing on an empty pending
list. -/
theorem abandon_deps_loop_nil (f : String) (wl : List String) :
    abandon_deps_loop f wl [] = ([], [], []) := by
  induction wl with
  | nil => rw [abandon_deps_loop]
  | cons a rest ih =>
      rw [abandon_deps_loop]
      simp [split, ih]

/-- After a completion is handled from a state with empty `queued` and
`pending`, both stay empty and none of the emitted events is a
STARTED_JOB. -/
theorem handle_completion_drained (cof cwd : Bool) (st : ExecutorState)
    (job_id : String) (succ : Bool)
    (hq : st.queued_jobs = []) (hp : st.pending_jobs = []) :
    (handle_completion cof cwd st job_id succ).1.queued_jobs = []
    ∧ (handle_completion cof cwd st job_id succ).1.pending_jobs = []
    ∧ ∀ e ∈ (handle_completion cof cwd st job_id succ).2,
        is_started_job e = false := by
  cases succ <;> cases cof <;> cases cwd <;>
    simp [handle_completion, hq, hp, abandon_deps_loop_nil, split,
      is_started_job]

/-- One-step unfolding of the wait-phase fold. -/
theorem process_completions_cons (cof cwd : Bool) (j : Job) (rest : List Job)
    (st : ExecutorState) :
    process_completions cof cwd (j :: rest) st =
      ((process_completions cof cwd rest
          (handle_completion cof cwd st j.jid (async_job j).2).1).1,
       status_event st ::
         ((async_job j).1 ++ (handle_completion cof cwd st j.jid (async_job j).2).2
           ++ (process_completions cof cwd rest
               (handle_completion cof cwd st j.jid (async_job j).2).1).2)) := rfl

/-- Processing any snapshot of completions from a state with empty
`queued` and `pending` keeps them empty and emits no STARTED_JOB. -/
theorem process_completions_drained (cof cwd : Bool) :
    ∀ (snapshot : List Job) (st : ExecutorState),
      st.queued_jobs = [] → st.pending_jobs = [] →
      (process_completions cof cwd snapshot st).1.queued_jobs = []
      ∧ (process_completions cof cwd snapshot st).1.pending_jobs = []
      ∧ ∀ e ∈ (process_completions cof cwd snapshot st).2,
          is_started_job e = false := by
  intro snapshot
  induction snapshot with
  | nil =>
      intro st hq hp
      exact ⟨hq, hp, by intro e he; simp [process_completions] at he⟩
  | cons j rest ih =>
      intro st hq hp
      have hhc := handle_completion_drained cof cwd st j.jid (async_job j).2 hq hp
      have hrest := ih _ hhc.1 hhc.2.1
      rw [process_completions_cons]
      refine ⟨hrest.1, hrest.2.1, ?_⟩
      intro e he
      rcases List.mem_cons.mp he with h | h
      · rw [h]; rfl
      · rcases List.mem_append.mp h with h1 | h1
        · rcases List.mem_append.mp h1 with h2 | h2
          · exact async_job_stages_no_started_job j.jid j.continue_on_failure
              j.stages true e h2
          · exact hhc.2.2 e h2
        · exact hrest.2.2 e h1

/-- The state and events of one main-loop iteration: activation phase
followed by the wait phase over the snapshot of active jobs. -/
def loop_step (mj : Nat) (cof cwd : Bool) (st : ExecutorState) :
    ExecutorState × List Event :=
  let a := activate_loop mj st.queued_jobs st.active_jobs
  let st1 : ExecutorState := { st with queued_jobs := a.1, active_jobs := a.2.1 }
  let p := process_completions cof cwd st1.active_jobs st1
  (p.1, a.2.2 ++ p.2)

/-- The main loop with zero fuel reports non-termination. -/
theorem main_loop_zero (mj : Nat) (cof cwd : Bool) (st : ExecutorState) :
    main_loop mj cof cwd 0 st = none := rfl

/-- The main loop exits as soon as `active ∪ queued ∪ pending` is
empty. -/
theorem main_loop_exit (mj : Nat) (cof cwd : Bool) (k : Nat) (st : ExecutorState)
    (hz : st.active_jobs.length + st.queued_jobs.length
      + st.pending_jobs.length = 0) :
    main_loop mj cof cwd (k + 1) st = some (st, []) := by
  rw [main_loop, if_pos hz]

/-- One iteration of the main loop when the guard holds. -/
theorem main_loop_step (mj : Nat) (cof cwd : Bool) (k : Nat) (st : ExecutorState)
    (hz : ¬(st.active_jobs.length + st.queued_jobs.length
      + st.pending_jobs.length = 0)) :
    main_loop mj cof cwd (k + 1) st =
      match main_loop mj cof cwd k (loop_step mj cof cwd st).1 with
      | none => none
      | some (stF, evs3) => some (stF, (loop_step mj cof cwd st).2 ++ evs3) := by
  rw [main_loop, if_neg hz]
  rfl

/-- With an empty queue the activation phase is a no-op, so a loop
iteration from a drained state is just the wait phase. -/
theorem loop_step_drained (mj : Nat) (cof cwd : Bool) (st : ExecutorState)
    (hq : st.queued_jobs = []) :
    loop_step mj cof cwd st =
      ((process_completions cof cwd st.active_jobs
          { st with queued_jobs := [] }).1,
       (process_completions cof cwd st.active_jobs
          { st with queued_jobs := [] }).2) := by
  unfold loop_step
  rw [hq]
  rfl

/-- Once `queued` and `pending` are both empty, no later iteration of
the main loop ever emits a STARTED_JOB event. -/
theorem main_loop_no_start_after_drain (mj : Nat) (cof cwd : Bool) :
    ∀ (fuel : Nat) (st : ExecutorState) (res : ExecutorState × List Event),
      st.queued_jobs = [] → st.pending_jobs = [] →
      main_loop mj cof cwd fuel st = some res →
      ∀ e ∈ res.2, is_started_job e = false := by
  intro fuel
  induction fuel with
  | zero => intro st res _ _ h; exact absurd h (by rw [main_loop_zero]; simp)
  | succ k ih =>
      intro st res hq hp h
      by_cases hz : st.active_jobs.length + st.queued_jobs.length
          + st.pending_jobs.length = 0
      · rw [main_loop_exit mj cof cwd k st hz] at h
        cases h
        intro e he; simp at he
      · rw [main_loop_step mj cof cwd k st hz,
          loop_step_drained mj cof cwd st hq] at h
        have hpc := process_completions_drained cof cwd st.active_jobs
          { st with queued_jobs := [] } rfl hp
        cases hrec : main_loop mj cof cwd k
            (process_completions cof cwd st.active_jobs
              { st with queued_jobs := [] }).1 with
        | none => rw [hrec] at h; cases h
        | some res2 =>
            rw [hrec] at h
            cases h
            intro e he
            rcases List.mem_append.mp he with h1 | h1
            · exact hpc.2.2 e h1
            · exact ih _ res2 hpc.1 hpc.2.1 hrec e h1

/-- C5: under `continue_on_failure = false`, when a completion with
`succeeded = false` is handled, (1) the scheduler drains `queued` and
`pending` entirely into `abandoned`, emitting — right after the
FINISHED_JOB event — one ABANDONED_JOB event with reason PEER_FAILED
and `peer_job_id` equal to the failed job's id for each drained job,
in order; and (2) from any state whose `queued` and `pending` are
empty (as they are after such a drain) the main loop never emits
another STARTED_JOB event, so no further job is ever started. -/
theorem c5_peer_failed_propagation :
    (∀ (cwd : Bool) (st : ExecutorState) (job_id : String),
      handle_completion false cwd st job_id false
      = ({ pending_jobs := [], queued_jobs := []
          , active_jobs := st.active_jobs.filter (fun j => !(j.jid == job_id))
          , completed_jobs := dict_set st.completed_jobs job_id false
          , abandoned_jobs :=
              st.abandoned_jobs ++ (st.queued_jobs ++ st.pending_jobs) },
         Event.finished_job job_id false ::
           (st.queued_jobs ++ st.pending_jobs).map (fun j =>
             Event.abandoned_job j.jid (AbandonReason.peer_failed job_id))))
    ∧ (∀ (cwd : Bool) (mj fuel : Nat) (st : ExecutorState)
        (res : ExecutorState × List Event),
        st.queued_jobs = [] → st.pending_jobs = [] →
        main_loop mj false cwd fuel st = some res →
        (res.2.all (fun e => !is_started_job e)) = true) := by
  constructor
  · intro cwd st job_id
    simp [handle_completion, split]
  · intro cwd mj fuel st res hq hp h
    rw [List.all_eq_true]
    intro e he
    simp only [Bool.not_eq_true']
    exact main_loop_no_start_after_drain mj false cwd fuel st res hq hp h e he

/-- Witness for `c5_peer_failed_propagation` at concrete inputs:
a state with one queued and one pending job is drained with
PEER_FAILED events when job "F" fails, and a loop run over a drained
state with one active job emits no STARTED_JOB. -/
theorem c5_peer_failed_propagation_witness :
    (handle_completion false false
      { pending_jobs :=
          [{ jid := "P", deps := ["F"], stages := [], continue_on_failure := true }]
        , queued_jobs :=
          [{ jid := "Q", deps := [], stages := [], continue_on_failure := true }]
        , active_jobs := [], completed_jobs := [], abandoned_jobs := [] }
      "F" false
      = ({ pending_jobs := [], queued_jobs := [], active_jobs := []
          , completed_jobs := [("F", false)]
          , abandoned_jobs :=
            [ { jid := "Q", deps := [], stages := [], continue_on_failure := true }
            , { jid := "P", deps := ["F"], stages := [], continue_on_failure := true } ] },
         [ Event.finished_job "F" false
         , Event.abandoned_job "Q" (AbandonReason.peer_failed "F")
         , Event.abandoned_job "P" (AbandonReason.peer_failed "F") ]))
    ∧ (([ Event.job_status [] [] ["A"] [] []
        , Event.started_stage "A" "sA"
        , Event.finished_stage "A" "sA" true 0
        , Event.finished_job "A" true ].all (fun e => !is_started_job e)) = true) := by
  constructor
  · exact (c5_peer_failed_propagation.1 false _ "F").trans (by decide)
  · exact c5_peer_failed_propagation.2 false 4 2
      { pending_jobs := [], queued_jobs := []
        , active_jobs :=
          [{ jid := "A", deps := []
             , stages := [{ label := "sA", outputs := [], outcome := StageOutcome.ret 0 }]
             , continue_on_failure := true }]
        , completed_jobs := [], abandoned_jobs := [] }
      (_, _) rfl rfl rfl

/-! ## Claim C6 -/

/-- Reachability through pending jobs: `DepReach pending failed j`
holds iff there is a path in the dependency graph from the failed job
id `failed` to `j` all of whose nodes are jobs of `pending` (each node
lists the previous node's id among its deps). -/
inductive DepReach (pending : List Job) (failed : String) : Job → Prop
  | base (j : Job) (hj : j ∈ pending) (hd : failed ∈ j.deps) :
      DepReach pending failed j
  | step (j k : Job) (hj : j ∈ pending) (hk : DepReach pending failed k)
      (hd : k.jid ∈ j.deps) : DepReach pending failed j

/-- Bridge between the source's `list.contains` tests and list
membership. -/
theorem contains_iff_mem {l : List String} {a : String} :
    l.contains a = true ↔ a ∈ l := List.elem_iff

/-- One-round unfolding of the transitive-abandonment worklist loop. -/
theorem abandon_deps_loop_cons (f aid : String) (rest : List String)
    (pending : List Job) :
    abandon_deps_loop f (aid :: rest) pending =
      ((split (fun j => j.deps.contains aid) pending).1
        ++ (abandon_deps_loop f
            (rest ++ ((split (fun j => j.deps.contains aid) pending).1.map Job.jid))
            (split (fun j => j.deps.contains aid) pending).2).1,
       ((split (fun j => j.deps.contains aid) pending).1.map (fun j =>
          Event.abandoned_job j.jid (AbandonReason.dep_failed aid f)))
        ++ (abandon_deps_loop f
            (rest ++ ((split (fun j => j.deps.contains aid) pending).1.map Job.jid))
            (split (fun j => j.deps.contains aid) pending).2).2.1,
       (abandon_deps_loop f
            (rest ++ ((split (fun j => j.deps.contains aid) pending).1.map Job.jid))
            (split (fun j => j.deps.contains aid) pending).2).2.2) := by
  rw [abandon_deps_loop]

/-- The worklist measure strictly decreases at each round. -/
theorem abandon_measure_lt (aid : String) (rest : List String)
    (pending : List Job) :
    (rest ++ ((split (fun j => j.deps.contains aid) pending).1.map Job.jid)).length
      + 2 * (split (fun j => j.deps.contains aid) pending).2.length
    < (aid :: rest).length + 2 * pending.length := by
  have h := split_length (fun j => j.deps.contains aid) pending
  simp only [List.length_append, List.length_map, List.length_cons] at h ⊢
  omega

/-- Soundness of the worklist: a pending job with a dep on any id of
the worklist ends up abandoned. -/
theorem abandon_deps_loop_sound (f : String) :
    ∀ (n : Nat) (wl : List String) (pending : List Job),
      wl.length + 2 * pending.length ≤ n →
      ∀ j ∈ pending, (∃ aid, aid ∈ wl ∧ aid ∈ j.deps) →
      j ∈ (abandon_deps_loop f wl pending).1 := by
  intro n
  induction n using Nat.strong_induction_on with
  | _ n ih =>
    intro wl pending hn j hj hex
    obtain ⟨a, ha, hadep⟩ := hex
    cases wl with
    | nil => simp at ha
    | cons aid rest =>
      rw [abandon_deps_loop_cons]
      cases hjd : j.deps.contains aid with
      | true => exact List.mem_append_left _ (List.mem_filter.mpr ⟨hj, hjd⟩)
      | false =>
        have hane : a ≠ aid := by
          intro hcon
          rw [hcon] at hadep
          rw [contains_iff_mem.mpr hadep] at hjd
          cases hjd
        have ha' : a ∈ rest := by
          rcases List.mem_cons.mp ha with h | h
          · exact absurd h hane
          · exact h
        have hj2 : j ∈ (split (fun j => j.deps.contains aid) pending).2 :=
          List.mem_filter.mpr ⟨hj, by
            show (!(j.deps.contains aid)) = true
            rw [hjd]; rfl⟩
        refine List.mem_append_right _ ?_
        exact ih _ (Nat.lt_of_lt_of_le (abandon_measure_lt aid rest pending) hn)
          _ _ (le_refl _) j hj2 ⟨a, List.mem_append_left _ ha', hadep⟩

/-- Closure of the worklist result: a pending job with a dep on an
abandoned job is itself abandoned. -/
theorem abandon_deps_loop_closed (f : String) :
    ∀ (n : Nat) (wl : List String) (pending : List Job),
      wl.length + 2 * pending.length ≤ n →
      ∀ j ∈ pending, ∀ k ∈ (abandon_deps_loop f wl pending).1,
        k.jid ∈ j.deps →
        j ∈ (abandon_deps_loop f wl pending).1 := by
  intro n
  induction n using Nat.strong_induction_on with
  | _ n ih =>
    intro wl pending hn j hj k hk hdep
    cases wl with
    | nil =>
        rw [abandon_deps_loop] at hk
        simp at hk
    | cons aid rest =>
      rw [abandon_deps_loop_cons] at hk ⊢
      cases hjd : j.deps.contains aid with
      | true => exact List.mem_append_left _ (List.mem_filter.mpr ⟨hj, hjd⟩)
      | false =>
        have hj2 : j ∈ (split (fun j => j.deps.contains aid) pending).2 :=
          List.mem_filter.mpr ⟨hj, by
            show (!(j.deps.contains aid)) = true
            rw [hjd]; rfl⟩
        refine List.mem_append_right _ ?_
        rcases List.mem_append.mp hk with hk1 | hk2
        · have hkid : k.jid ∈ ((split (fun j => j.deps.contains aid) pending).1.map Job.jid) :=
            List.mem_map_of_mem Job.jid hk1
          exact abandon_deps_loop_sound f _ _ _ (le_refl _) j hj2
            ⟨k.jid, List.mem_append_right _ hkid, hdep⟩
        · exact ih _ (Nat.lt_of_lt_of_le (abandon_measure_lt aid rest pending) hn)
            _ _ (le_refl _) j hj2 k hk2 hdep

/-- Completeness of the worklist: every abandoned job is reachable
from a justified worklist id through pending jobs. -/
theorem abandon_deps_loop_complete (f : String) :
    ∀ (n : Nat) (wl : List String) (pending : List Job),
      wl.length + 2 * pending.length ≤ n →
      ∀ (pending0 : List Job),
        (∀ x ∈ pending, x ∈ pending0) →
        (∀ aid ∈ wl, aid = f ∨ ∃ k, DepReach pending0 f k ∧ k.jid = aid) →
        ∀ j ∈ (abandon_deps_loop f wl pending).1, DepReach pending0 f j := by
  intro n
  induction n using Nat.strong_induction_on with
  | _ n ih =>
    intro wl pending hn pending0 hsub hwl j hj
    cases wl with
    | nil =>
        rw [abandon_deps_loop] at hj
        simp at hj
    | cons aid rest =>
      rw [abandon_deps_loop_cons] at hj
      have hreach1 : ∀ x ∈ (split (fun j => j.deps.contains aid) pending).1,
          DepReach pending0 f x := by
        intro x hx
        have hx0 : x ∈ pending0 := hsub x (List.mem_filter.mp hx).1
        have hxdep : aid ∈ x.deps :=
          contains_iff_mem.mp (List.mem_filter.mp hx).2
        rcases hwl aid (List.mem_cons_self aid rest) with h | ⟨k, hk, hkid⟩
        · rw [h] at hxdep
          exact DepReach.base x hx0 hxdep
        · rw [← hkid] at hxdep
          exact DepReach.step x k hx0 hk hxdep
      rcases List.mem_append.mp hj with h1 | h2
      · exact hreach1 j h1
      · refine ih _ (Nat.lt_of_lt_of_le (abandon_measure_lt aid rest pending) hn)
          _ _ (le_refl _) pending0
          (fun x hx => hsub x (List.mem_filter.mp hx).1) ?_ j h2
        intro b hb
        rcases List.mem_append.mp hb with hb1 | hb2
        · exact hwl b (List.mem_cons_of_mem aid hb1)
        · rcases List.mem_map.mp hb2 with ⟨x, hx, hxid⟩
          exact Or.inr ⟨x, hreach1 x hx, hxid⟩

/-- Exact characterization of the transitive-abandonment loop: a job
is abandoned by the worklist started at the failed job's id iff it is
reachable from the failed job through pending dependents. -/
theorem abandon_deps_loop_spec (f : String) (pending : List Job) (j : Job) :
    j ∈ (abandon_deps_loop f [f] pending).1 ↔ DepReach pending f j := by
  constructor
  · intro h
    refine abandon_deps_loop_complete f _ [f] pending (le_refl _) pending
      (fun x hx => hx) ?_ j h
    intro aid haid
    exact Or.inl (List.mem_singleton.mp haid)
  · intro h
    induction h with
    | base j hj hd =>
        exact abandon_deps_loop_sound f _ [f] pending (le_refl _) j hj
          ⟨f, List.mem_singleton.mpr rfl, hd⟩
    | step j k hj hk hd ihk =>
        exact abandon_deps_loop_closed f _ [f] pending (le_refl _) j hj k ihk hd

/-- Every event of the transitive-abandonment loop is an
ABANDONED_JOB/DEP_FAILED event for an abandoned job `j`, whose
`dep_job_id` is the failed job and whose `direct_dep_job_id` is a dep
of `j` that is either an id of the worklist or the id of another
abandoned job. -/
theorem abandon_deps_loop_events (f : String) :
    ∀ (n : Nat) (wl : List String) (pending : List Job),
      wl.length + 2 * pending.length ≤ n →
      ∀ e ∈ (abandon_deps_loop f wl pending).2.1,
        ∃ j aid, e = Event.abandoned_job j.jid (AbandonReason.dep_failed aid f)
          ∧ j ∈ (abandon_deps_loop f wl pending).1
          ∧ aid ∈ j.deps
          ∧ (aid ∈ wl
             ∨ ∃ k, k ∈ (abandon_deps_loop f wl pending).1 ∧ k.jid = aid) := by
  intro n
  induction n using Nat.strong_induction_on with
  | _ n ih =>
    intro wl pending hn e he
    cases wl with
    | nil =>
        rw [abandon_deps_loop] at he
        simp at he
    | cons aid rest =>
      rw [abandon_deps_loop_cons] at he
      rw [abandon_deps_loop_cons]
      rcases List.mem_append.mp he with h1 | h2
      · rcases List.mem_map.mp h1 with ⟨x, hx, hxe⟩
        refine ⟨x, aid, hxe.symm, List.mem_append_left _ hx,
          contains_iff_mem.mp (List.mem_filter.mp hx).2,
          Or.inl (List.mem_cons_self aid rest)⟩
      · obtain ⟨j, aid', hje, hj, hdep, hlast⟩ :=
          ih _ (Nat.lt_of_lt_of_le (abandon_measure_lt aid rest pending) hn)
            _ _ (le_refl _) e h2
        refine ⟨j, aid', hje, List.mem_append_right _ hj, hdep, ?_⟩
        rcases hlast with hw | ⟨k, hk, hkid⟩
        · rcases List.mem_append.mp hw with hw1 | hw2
          · exact Or.inl (List.mem_cons_of_mem aid hw1)
          · rcases List.mem_map.mp hw2 with ⟨x, hx, hxid⟩
            exact Or.inr ⟨x, List.mem_append_left _ hx, hxid⟩
        · exact Or.inr ⟨k, List.mem_append_right _ hk, hkid⟩

/-- C6: under `continue_on_failure = true` and
`continue_without_deps = false`, when the completion of a failed job
`job_id` is handled, (1) a job joins `abandoned` exactly when it was
already abandoned or there is a dependency path from `job_id` to it
through jobs pending at the moment of failure (the worklist traversal
computes precisely that reachable set, each newly abandoned id
becoming a new abandonment source); and (2) every emitted event is
the FINISHED_JOB, a promotion QUEUED_JOB, or an
ABANDONED_JOB/DEP_FAILED event whose `dep_job_id` is the failed job
and whose `direct_dep_job_id` is a dep of the abandoned job and is the
failed job's id or the id of another abandoned job. -/
theorem c6_dep_failed_transitive_abandonment :
    (∀ (st : ExecutorState) (job_id : String) (j : Job),
      j ∈ (handle_completion true false st job_id false).1.abandoned_jobs
      ↔ (j ∈ st.abandoned_jobs ∨ DepReach st.pending_jobs job_id j))
    ∧ (∀ (st : ExecutorState) (job_id : String)
        (e : Event), e ∈ (handle_completion true false st job_id false).2 →
        (e = Event.finished_job job_id false)
        ∨ (∃ jid, e = Event.queued_job jid)
        ∨ (∃ j aid,
            e = Event.abandoned_job j.jid (AbandonReason.dep_failed aid job_id)
            ∧ DepReach st.pending_jobs job_id j
            ∧ aid ∈ j.deps
            ∧ (aid = job_id
               ∨ ∃ k, DepReach st.pending_jobs job_id k ∧ k.jid = aid))) := by
  constructor
  · intro st job_id j
    show j ∈ st.abandoned_jobs
        ++ (abandon_deps_loop job_id [job_id] st.pending_jobs).1 ↔ _
    rw [List.mem_append, abandon_deps_loop_spec]
  · intro st job_id e he
    have he2 : e = Event.finished_job job_id false
        ∨ e ∈ (abandon_deps_loop job_id [job_id] st.pending_jobs).2.1
          ++ ((split (fun j => j.all_deps_completed
              (dict_set st.completed_jobs job_id false))
            (abandon_deps_loop job_id [job_id] st.pending_jobs).2.2).1.map
            (fun j => Event.queued_job j.jid)) := by
      rcases List.mem_cons.mp he with h | h
      · exact Or.inl h
      · exact Or.inr h
    rcases he2 with h | h
    · exact Or.inl h
    · rcases List.mem_append.mp h with h1 | h2
      · refine Or.inr (Or.inr ?_)
        obtain ⟨j, aid, hje, hj, hdep, hlast⟩ :=
          abandon_deps_loop_events job_id _ [job_id] st.pending_jobs
            (le_refl _) e h1
        refine ⟨j, aid, hje, (abandon_deps_loop_spec _ _ _).mp hj, hdep, ?_⟩
        rcases hlast with hw | ⟨k, hk, hkid⟩
        · exact Or.inl (List.mem_singleton.mp hw)
        · exact Or.inr ⟨k, (abandon_deps_loop_spec _ _ _).mp hk, hkid⟩
      · rcases List.mem_map.mp h2 with ⟨x, _, hxe⟩
        exact Or.inr (Or.inl ⟨x.jid, hxe.symm⟩)

/-- Witness for `c6_dep_failed_transitive_abandonment`: in the diamond
scenario, after `B` fails with `D(deps=[B,C])` pending, `D` is
abandoned (it depends directly on `B`), and the concrete
ABANDONED_JOB event for `D` carries `direct_dep_job_id = B`
(a dep of `D`) and `dep_job_id = B`. -/
theorem c6_dep_failed_witness :
    (({ jid := "D", deps := ["B", "C"], stages := [],
        continue_on_failure := true } : Job)
      ∈ (handle_completion true false
          { pending_jobs :=
              [{ jid := "D", deps := ["B", "C"], stages := []
                 , continue_on_failure := true }]
            , queued_jobs := [], active_jobs := [], completed_jobs := []
            , abandoned_jobs := [] } "B" false).1.abandoned_jobs
      ↔ (({ jid := "D", deps := ["B", "C"], stages := [],
            continue_on_failure := true } : Job) ∈ ([] : List Job)
         ∨ DepReach
            [{ jid := "D", deps := ["B", "C"], stages := []
               , continue_on_failure := true }] "B"
            { jid := "D", deps := ["B", "C"], stages := []
              , continue_on_failure := true }))
    ∧ ((Event.abandoned_job "D" (AbandonReason.dep_failed "B" "B")
        = Event.finished_job "B" false)
       ∨ (∃ jid, Event.abandoned_job "D" (AbandonReason.dep_failed "B" "B")
            = Event.queued_job jid)
       ∨ (∃ j aid,
            Event.abandoned_job "D" (AbandonReason.dep_failed "B" "B")
              = Event.abandoned_job j.jid (AbandonReason.dep_failed aid "B")
            ∧ DepReach
                [{ jid := "D", deps := ["B", "C"], stages := []
                   , continue_on_failure := true }] "B" j
            ∧ aid ∈ j.deps
            ∧ (aid = "B"
               ∨ ∃ k, DepReach
                    [{ jid := "D", deps := ["B", "C"], stages := []
                       , continue_on_failure := true }] "B" k
                  ∧ k.jid = aid))) := by
  constructor
  · exact c6_dep_failed_transitive_abandonment.1
      { pending_jobs :=
          [{ jid := "D", deps := ["B", "C"], stages := []
             , continue_on_failure := true }]
        , queued_jobs := [], active_jobs := [], completed_jobs := []
        , abandoned_jobs := [] } "B"
      { jid := "D", deps := ["B", "C"], stages := [], continue_on_failure := true }
  · exact c6_dep_failed_transitive_abandonment.2
      { pending_jobs :=
          [{ jid := "D", deps := ["B", "C"], stages := []
             , continue_on_failure := true }]
        , queued_jobs := [], active_jobs := [], completed_jobs := []
        , abandoned_jobs := [] } "B"
      (Event.abandoned_job "D" (AbandonReason.dep_failed "B" "B"))
      (by
        have hl : (handle_completion true false
            { pending_jobs :=
                [{ jid := "D", deps := ["B", "C"], stages := []
                   , continue_on_failure := true }]
              , queued_jobs := [], active_jobs := [], completed_jobs := []
              , abandoned_jobs := [] } "B" false).2
            = [ Event.finished_job "B" false
              , Event.abandoned_job "D" (AbandonReason.dep_failed "B" "B") ] := by
          simp [handle_completion, abandon_deps_loop_cons, abandon_deps_loop_nil,
            split, dict_set, Job.all_deps_completed, dict_contains]
        rw [hl]
        exact List.mem_cons_of_mem _ (List.mem_singleton.mpr rfl))

/-! ## Claim C7 -/

/-- A minimal model of the Python values that can reach the stage
constructors' validation checks. -/
inductive PyVal where
  | pystr (s : String)
  | pyint (n : Int)
  | pylist (xs : List PyVal)
  | pytuple (xs : List PyVal)
  | pynone
  | pyfun (name : String)
deriving Repr

/-- Python `type(s) is str` on the modelled values. -/
def PyVal.is_str : PyVal → Bool
  | PyVal.pystr _ => true
  | _ => false

/-- Python `type(cmd) in [list, tuple]` on the modelled values. -/
def PyVal.is_list_or_tuple : PyVal → Bool
  | PyVal.pylist _ => true
  | PyVal.pytuple _ => true
  | _ => false

/-- The elements iterated by `all([type(s) is str for s in cmd])`
(for non-sequences the check is never reached, the `or` having
short-circuited). -/
def PyVal.elems : PyVal → List PyVal
  | PyVal.pylist xs => xs
  | PyVal.pytuple xs => xs
  | _ => []

/-- Python `callable(f)`: of the modelled values only functions are
callable. -/
def PyVal.is_callable : PyVal → Bool
  | PyVal.pyfun _ => true
  | _ => false

/-- The validation of `CmdStage.__init__` (`stages.py` lines 41-42):
`if not type(cmd) in [list, tuple] or not all([type(s) is str for s in
cmd]): raise ValueError(...)`.  Returns `true` iff the constructor
raises. -/
def cmd_stage_raises (cmd : PyVal) : Bool :=
  !cmd.is_list_or_tuple || !(cmd.elems.all PyVal.is_str)

/-- The validation of `FunStage.__init__` (`stages.py` lines 70-71):
`if not callable(function): raise ValueError(...)`.  Returns `true`
iff the constructor raises. -/
def fun_stage_raises (function : PyVal) : Bool :=
  !function.is_callable

/-- C7 counterexample: the claim says constructing a CmdStage with an
empty argv list raises a ValueError; the source check
`not type(cmd) in [list, tuple] or not all([type(s) is str for s in cmd])`
accepts the empty list (`all([])` is true), so no ValueError is
raised. -/
theorem c7_counterexample_empty_argv_accepted :
    cmd_stage_raises (PyVal.pylist []) = false := rfl

/-- C7 (amended): CmdStage construction raises a ValueError iff the
argv is not a list or tuple of strings — the empty list and empty
tuple are accepted, the claim's non-emptiness requirement is not
checked by the code — and FunStage construction raises a ValueError
iff the supplied function is not callable. -/
theorem c7_stage_validation :
    (∀ cmd : PyVal, cmd_stage_raises cmd = false ↔
      (∃ xs, (cmd = PyVal.pylist xs ∨ cmd = PyVal.pytuple xs)
        ∧ ∀ x ∈ xs, ∃ s, x = PyVal.pystr s))
    ∧ (∀ f : PyVal, fun_stage_raises f = false ↔ ∃ name, f = PyVal.pyfun name) := by
  constructor
  · intro cmd
    cases cmd with
    | pylist xs =>
        simp only [cmd_stage_raises, PyVal.is_list_or_tuple, PyVal.elems,
          Bool.not_true, Bool.false_or, Bool.not_eq_false', List.all_eq_true]
        constructor
        · intro h
          refine ⟨xs, Or.inl rfl, ?_⟩
          intro x hx
          have := h x hx
          cases x <;> simp [PyVal.is_str] at this ⊢
        · rintro ⟨ys, hys, hall⟩ x hx
          rcases hys with h | h
          · cases h
            obtain ⟨s, hs⟩ := hall x hx
            rw [hs]; rfl
          · cases h
        | pytuple xs =>
        simp only [cmd_stage_raises, PyVal.is_list_or_tuple, PyVal.elems,
          Bool.not_true, Bool.false_or, Bool.not_eq_false', List.all_eq_true]
        constructor
        · intro h
          refine ⟨xs, Or.inr rfl, ?_⟩
          intro x hx
          have := h x hx
          cases x <;> simp [PyVal.is_str] at this ⊢
        · rintro ⟨ys, hys, hall⟩ x hx
          rcases hys with h | h
          · cases h
          · cases h
            obtain ⟨s, hs⟩ := hall x hx
            rw [hs]; rfl
    | pystr s => simp [cmd_stage_raises, PyVal.is_list_or_tuple]
    | pyint n => simp [cmd_stage_raises, PyVal.is_list_or_tuple]
    | pynone => simp [cmd_stage_raises, PyVal.is_list_or_tuple]
    | pyfun name => simp [cmd_stage_raises, PyVal.is_list_or_tuple]
  · intro f
    cases f <;> simp [fun_stage_raises, PyVal.is_callable]

/-! ## Claim C9 -/

/-- The three buffers of `IOBufferContainer` (`io.py` lines 7-14),
shared by `IOBufferLogger` and `IOBufferProtocol`.  The source buffers
hold byte strings; they are modelled as `String`. -/
structure IOBufferContainer where
  stdout_buffer : String
  stderr_buffer : String
  interleaved_buffer : String
deriving DecidableEq, Repr

/-- Python `data.rstrip()` as used by `IOBufferLogger.out/err`
(trailing whitespace removed). -/
def rstrip (s : String) : String := s.dropRightWhile Char.isWhitespace

/-- `IOBufferLogger.out` (`io.py` lines 31-39): appends
`data.rstrip() + "\n"` to `stdout_buffer` and `interleaved_buffer` and
emits a STDOUT event carrying the raw data. -/
def logger_out (job_id label : String) (st : IOBufferContainer)
    (data : String) : IOBufferContainer × Event :=
  ({ st with
      stdout_buffer := st.stdout_buffer ++ (rstrip data ++ "\n")
      , interleaved_buffer := st.interleaved_buffer ++ (rstrip data ++ "\n") },
   Event.stdout_chunk job_id label data)

/-- `IOBufferLogger.err` (`io.py` lines 41-49): appends
`data.rstrip() + "\n"` to `stderr_buffer` and `interleaved_buffer` and
emits a STDERR event carrying the raw data. -/
def logger_err (job_id label : String) (st : IOBufferContainer)
    (data : String) : IOBufferContainer × Event :=
  ({ st with
      stderr_buffer := st.stderr_buffer ++ (rstrip data ++ "\n")
      , interleaved_buffer := st.interleaved_buffer ++ (rstrip data ++ "\n") },
   Event.stderr_chunk job_id label data)

/-- `IOBufferProtocol.on_stdout_received` (`io.py` lines 79-87):
appends the raw chunk to `stdout_buffer` and `interleaved_buffer` and
emits a STDOUT event. -/
def protocol_on_stdout_received (job_id label : String)
    (st : IOBufferContainer) (data : String) : IOBufferContainer × Event :=
  ({ st with
      stdout_buffer := st.stdout_buffer ++ data
      , interleaved_buffer := st.interleaved_buffer ++ data },
   Event.stdout_chunk job_id label data)

/-- `IOBufferProtocol.on_stderr_received` (`io.py` lines 89-97):
appends the raw chunk to `stderr_buffer` and `interleaved_buffer` and
emits a STDERR event. -/
def protocol_on_stderr_received (job_id label : String)
    (st : IOBufferContainer) (data : String) : IOBufferContainer × Event :=
  ({ st with
      stderr_buffer := st.stderr_buffer ++ data
      , interleaved_buffer := st.interleaved_buffer ++ data },
   Event.stderr_chunk job_id label data)

/-- The four buffer-mutating operations a stage's lifetime can apply
to its capture object (logger calls from function stages, received
chunks for command stages). -/
inductive IOOp where
  | logger_out_call (data : String)
  | logger_err_call (data : String)
  | proto_stdout_recv (data : String)
  | proto_stderr_recv (data : String)
deriving DecidableEq, Repr

/-- Apply one IO operation to the buffers. -/
def apply_io_op (job_id label : String) (st : IOBufferContainer) :
    IOOp → IOBufferContainer
  | IOOp.logger_out_call d => (logger_out job_id label st d).1
  | IOOp.logger_err_call d => (logger_err job_id label st d).1
  | IOOp.proto_stdout_recv d => (protocol_on_stdout_received job_id label st d).1
  | IOOp.proto_stderr_recv d => (protocol_on_stderr_received job_id label st d).1

/-- Apply a sequence of IO operations, in order. -/
def apply_io_ops (job_id label : String) :
    List IOOp → IOBufferContainer → IOBufferContainer
  | [], st => st
  | op :: rest, st => apply_io_ops job_id label rest (apply_io_op job_id label st op)

/-- One operation only appends to each of the three buffers. -/
theorem apply_io_op_appends (job_id label : String) (st : IOBufferContainer)
    (op : IOOp) :
    (∃ t, (apply_io_op job_id label st op).stdout_buffer
      = st.stdout_buffer ++ t)
    ∧ (∃ t, (apply_io_op job_id label st op).stderr_buffer
      = st.stderr_buffer ++ t)
    ∧ (∃ t, (apply_io_op job_id label st op).interleaved_buffer
      = st.interleaved_buffer ++ t) := by
  cases op with
  | logger_out_call d =>
      exact ⟨⟨rstrip d ++ "\n", rfl⟩, ⟨"", by simp [apply_io_op, logger_out]⟩,
        ⟨rstrip d ++ "\n", rfl⟩⟩
  | logger_err_call d =>
      exact ⟨⟨"", by simp [apply_io_op, logger_err]⟩, ⟨rstrip d ++ "\n", rfl⟩,
        ⟨rstrip d ++ "\n", rfl⟩⟩
  | proto_stdout_recv d =>
      exact ⟨⟨d, rfl⟩, ⟨"", by simp [apply_io_op, protocol_on_stdout_received]⟩,
        ⟨d, rfl⟩⟩
  | proto_stderr_recv d =>
      exact ⟨⟨"", by simp [apply_io_op, protocol_on_stderr_received]⟩, ⟨d, rfl⟩,
        ⟨d, rfl⟩⟩

/-- C9: each of the three capture buffers is monotonic over a stage's
lifetime — for every sequence of `out`/`err` calls and received
stdout/stderr chunks, the buffer value before the sequence is a prefix
of (an initial segment of) its value after, the operations only ever
appending. -/
theorem c9_buffers_monotonic (job_id label : String) :
    ∀ (ops : List IOOp) (st : IOBufferContainer),
      (∃ t, (apply_io_ops job_id label ops st).stdout_buffer
        = st.stdout_buffer ++ t)
      ∧ (∃ t, (apply_io_ops job_id label ops st).stderr_buffer
        = st.stderr_buffer ++ t)
      ∧ (∃ t, (apply_io_ops job_id label ops st).interleaved_buffer
        = st.interleaved_buffer ++ t) := by
  intro ops
  induction ops with
  | nil =>
      intro st
      exact ⟨⟨"", by simp [apply_io_ops]⟩, ⟨"", by simp [apply_io_ops]⟩,
        ⟨"", by simp [apply_io_ops]⟩⟩
  | cons op rest ih =>
      intro st
      obtain ⟨⟨u1, hu1⟩, ⟨u2, hu2⟩, ⟨u3, hu3⟩⟩ :=
        apply_io_op_appends job_id label st op
      obtain ⟨⟨v1, hv1⟩, ⟨v2, hv2⟩, ⟨v3, hv3⟩⟩ :=
        ih (apply_io_op job_id label st op)
      refine ⟨⟨u1 ++ v1, ?_⟩, ⟨u2 ++ v2, ?_⟩, ⟨u3 ++ v3, ?_⟩⟩ <;>
        simp [apply_io_ops, hv1, hv2, hv3, hu1, hu2, hu3, String.append_assoc]

/-! ## Claim C10 -/

/-- Python exceptions reached by the modelled jobserver paths. -/
inductive PyExn where
  | attribute_error (type_name attr : String)
  | name_error (name : String)
  | assertion_error
deriving DecidableEq, Repr

/-- The state of a constructed `JobServer` instance
(`jobs.py` `__init__`, lines 90-121): `max_jobs` and the token pipe,
pre-filled with `max_jobs` one-byte tokens. -/
structure JobServerInstance where
  max_jobs : Nat
  pipe_tokens : Nat
deriving DecidableEq, Repr

/-- The class-level state of `JobServer`: the `_singleton` and the
`_gnu_make_supported` flag (`jobs.py` lines 83-88). -/
structure JobServerClass where
  singleton : Option JobServerInstance
  gnu_make_supported : Bool
deriving DecidableEq, Repr

/-- `JobServer.initialize` (`jobs.py` lines 240-264): asserts the
singleton is unset, stores the probe result in `_gnu_make_supported`
and, when the probe failed, logs a warning and returns without
creating the singleton; only on probe success is the singleton
constructed.  `probe_ok` is the scripted result of the subprocess
probe `_test_gnu_make_support()`. -/
def jobserver_initialize (cls : JobServerClass) (probe_ok : Bool)
    (mj : Nat) : Except PyExn JobServerClass :=
  if cls.singleton.isSome then Except.error PyExn.assertion_error
  else if probe_ok then
    Except.ok
      { singleton := some { max_jobs := mj, pipe_tokens := mj },
        gnu_make_supported := true }
  else Except.ok { cls with gnu_make_supported := false }

/-- `JobServer.max_jobs()` (`jobs.py` lines 335-341):
`return cls._singleton.max_jobs` — an attribute access on `None` when
the singleton was never created, which raises AttributeError. -/
def jobserver_max_jobs (cls : JobServerClass) : Except PyExn Nat :=
  match cls.singleton with
  | none => Except.error (PyExn.attribute_error "NoneType" "max_jobs")
  | some s => Except.ok s.max_jobs

/-- The first executed step of the `JobServer.try_acquire()` generator
body (`jobs.py` lines 299-311): it dereferences
`cls._singleton._conditions_ok()`, raising AttributeError on a `None`
singleton; otherwise a token is yielded iff the pipe has a byte
pending (`running_jobs < max_jobs`). -/
def jobserver_try_acquire_first (cls : JobServerClass) :
    Except PyExn (Option String) :=
  match cls.singleton with
  | none => Except.error (PyExn.attribute_error "NoneType" "_conditions_ok")
  | some s => Except.ok (if 0 < s.pipe_tokens then some "+" else none)

/-- `JobServer.release()` (`jobs.py` lines 313-318):
`cls._singleton._release()` writes one byte back to the pipe, raising
AttributeError on a `None` singleton. -/
def jobserver_release (cls : JobServerClass) : Except PyExn JobServerClass :=
  match cls.singleton with
  | none => Except.error (PyExn.attribute_error "NoneType" "_release")
  | some s =>
      Except.ok { cls with
        singleton := some { s with pipe_tokens := s.pipe_tokens + 1 } }

/-- The first jobserver-touching action of `execute_jobs`
(`executor.py` lines 139-140):
`ThreadPoolExecutor(max_workers=JobServer.max_jobs())` — the thread
pool size comes from `JobServer.max_jobs()`, so constructing it
propagates that call's exception. -/
def execute_jobs_threadpool_size (cls : JobServerClass) : Except PyExn Nat :=
  jobserver_max_jobs cls

/-- C10: when the GNU make jobserver probe fails,
`JobServer.initialize` returns without creating the singleton, so
every subsequent `max_jobs()`, `try_acquire()` or `release()` call
dereferences a `None` singleton and raises AttributeError — in
particular `execute_jobs` cannot even size its thread pool. -/
theorem c10_initialize_probe_failure (cls : JobServerClass) (mj : Nat)
    (cls' : JobServerClass)
    (hnone : cls.singleton = none)
    (hinit : jobserver_initialize cls false mj = Except.ok cls') :
    cls'.singleton = none
    ∧ jobserver_max_jobs cls'
      = Except.error (PyExn.attribute_error "NoneType" "max_jobs")
    ∧ jobserver_try_acquire_first cls'
      = Except.error (PyExn.attribute_error "NoneType" "_conditions_ok")
    ∧ jobserver_release cls'
      = Except.error (PyExn.attribute_error "NoneType" "_release")
    ∧ execute_jobs_threadpool_size cls'
      = Except.error (PyExn.attribute_error "NoneType" "max_jobs") := by
  have hs : cls.singleton.isSome = false := by rw [hnone]; rfl
  rw [ jobserver_initialize, hs] at hinit
  simp only [Bool.false_eq_true, if_false, Except.ok.injEq] at hinit
  have hcs : cls'.singleton = none := by rw [← hinit, hnone]
  refine ⟨hcs, ?_, ?_, ?_, ?_⟩ <;>
    simp [jobserver_max_jobs, jobserver_try_acquire_first, jobserver_release,
      execute_jobs_threadpool_size, hcs]

/-- Witness for `c10_initialize_probe_failure` at a concrete input. -/
theorem c10_initialize_probe_failure_witness :
    (({ singleton := none, gnu_make_supported := false } : JobServerClass).singleton
      = none)
    ∧ jobserver_max_jobs { singleton := none, gnu_make_supported := false }
      = Except.error (PyExn.attribute_error "NoneType" "max_jobs")
    ∧ jobserver_try_acquire_first { singleton := none, gnu_make_supported := false }
      = Except.error (PyExn.attribute_error "NoneType" "_conditions_ok")
    ∧ jobserver_release { singleton := none, gnu_make_supported := false }
      = Except.error (PyExn.attribute_error "NoneType" "_release")
    ∧ execute_jobs_threadpool_size { singleton := none, gnu_make_supported := false }
      = Except.error (PyExn.attribute_error "NoneType" "max_jobs") :=
  c10_initialize_probe_failure
    { singleton := none, gnu_make_supported := true } 4
    { singleton := none, gnu_make_supported := false } rfl rfl

/-! ## Claim C8 -/

/-- The local scope of the body of the classmethod
`JobServer.wait_acquire` (`jobs.py` lines 280-297): the decorator
binds `cls`, the body assigns `token`.  The name `self` is NOT bound —
the method is a classmethod, yet its body reads
`self._conditions_ok()` and `self._acquire()`. -/
structure WaitAcquireScope where
  cls_bound : Bool
  token : Option String
  self_bound : Option JobServerInstance
deriving Repr

/-- The scope `wait_acquire`'s body actually runs in: `cls` bound,
`token = None`, no `self`. -/
def classmethod_scope : WaitAcquireScope :=
  { cls_bound := true, token := none, self_bound := none }

/-- Python name resolution for `self` inside the body: an unbound name
raises `NameError`. -/
def lookup_self (sc : WaitAcquireScope) : Except PyExn JobServerInstance :=
  match sc.self_bound with
  | none => Except.error (PyExn.name_error "self")
  | some inst => Except.ok inst

/-- One iteration of `while token is None` in `wait_acquire`: evaluate
`self._conditions_ok()` — which first resolves the name `self` — then
either sleep 10 ms and retry (conditions blocked, yielding no token
this round) or call `self._acquire()`.  `conditions_ok` and `acquire`
script what the host would answer for a resolved `self`. -/
def wait_acquire_iter (sc : WaitAcquireScope) (conditions_ok : Bool)
    (acquire : Option String) : Except PyExn (Option String) := do
  let _ ← lookup_self sc
  if !conditions_ok then pure none
  else do
    let _ ← lookup_self sc
    pure acquire

/-- `JobServer.wait_acquire` (`jobs.py` lines 280-297) with a fuel
bound on loop iterations; `Except.ok none` means the loop was still
waiting when the fuel ran out.  The oracles give the per-iteration
host answers for the admission predicates and the pipe read. -/
def wait_acquire (sc : WaitAcquireScope) (conditions_ok : Nat → Bool)
    (acquire : Nat → Option String) : Nat → Except PyExn (Option String)
  | 0 => Except.ok none
  | fuel + 1 =>
    match wait_acquire_iter sc (conditions_ok fuel) (acquire fuel) with
    | Except.error e => Except.error e
    | Except.ok (some tok) => Except.ok (some tok)
    | Except.ok none => wait_acquire sc conditions_ok acquire fuel

/-- `JobGuard.__enter__` (`jobs.py` lines 355-363) calls
`JobServer.wait_acquire()`. -/
def job_guard_enter (sc : WaitAcquireScope) (conditions_ok : Nat → Bool)
    (acquire : Nat → Option String) (fuel : Nat) :
    Except PyExn (Option String) :=
  wait_acquire sc conditions_ok acquire fuel

/-- C8: the claim says `wait_acquire()` never raises and returns a
token whenever one is or becomes available, and that
`JobGuard.__enter__` therefore acquires a token.  In the source,
`wait_acquire` is a `@classmethod` whose body still references `self`;
on its very first loop iteration the unbound name `self` raises
`NameError`, whatever the host answers — and `JobGuard.__enter__`
propagates the same exception. -/
theorem c8_wait_acquire_raises_name_error
    (conditions_ok : Nat → Bool) (acquire : Nat → Option String)
    (fuel : Nat) (hfuel : 1 ≤ fuel) :
    wait_acquire classmethod_scope conditions_ok acquire fuel
      = Except.error (PyExn.name_error "self")
    ∧ job_guard_enter classmethod_scope conditions_ok acquire fuel
      = Except.error (PyExn.name_error "self") := by
  obtain ⟨k, rfl⟩ : ∃ k, fuel = k + 1 := ⟨fuel - 1, by omega⟩
  have h : wait_acquire classmethod_scope conditions_ok acquire (k + 1)
      = Except.error (PyExn.name_error "self") := by
    rw [wait_acquire]
    rfl
  exact ⟨h, h⟩

/-- Witness for `c8_wait_acquire_raises_name_error` at a concrete
input: the host would pass the admission checks and a token is
available on the pipe, yet the call still raises NameError. -/
theorem c8_wait_acquire_raises_name_error_witness :
    wait_acquire classmethod_scope (fun _ => true) (fun _ => some "+") 3
      = Except.error (PyExn.name_error "self")
    ∧ job_guard_enter classmethod_scope (fun _ => true) (fun _ => some "+") 3
      = Except.error (PyExn.name_error "self") :=
  c8_wait_acquire_raises_name_error (fun _ => true) (fun _ => some "+") 3
    (by decide)

/-! ## Claim C4 -/

/-- Recognizer for the claim's per-job lifecycle events with job_id
`jid`: STARTED_JOB, STARTED_STAGE, STDOUT, STDERR, FINISHED_STAGE,
FINISHED_JOB and ABANDONED_JOB.  JOB_STATUS carries no job_id;
QUEUED_JOB does carry one but sits outside the claimed per-job
ordering (see the amendment). -/
def lifecycle_event (jid : String) : Event → Bool
  | Event.started_job j => j == jid
  | Event.finished_job j _ => j == jid
  | Event.abandoned_job j _ => j == jid
  | Event.started_stage j _ => j == jid
  | Event.finished_stage j _ _ _ => j == jid
  | Event.stdout_chunk j _ _ => j == jid
  | Event.stderr_chunk j _ _ => j == jid
  | _ => false

/-- The subsequence of a trace made of the lifecycle events of job
`jid`. -/
def lifecycle_of (jid : String) (tr : List Event) : List Event :=
  tr.filter (lifecycle_event jid)

/-- An event carrying the job_id `jid` in its payload, as worded by
the claim: the lifecycle events plus QUEUED_JOB. -/
def carries_job_id (jid : String) : Event → Bool
  | Event.queued_job j => j == jid
  | e => lifecycle_event jid e

/-- The complete event sequence of a job that was started and ran to
completion: STARTED_JOB, the scheduler's extra STARTED_STAGE
'activate', the runtime's stage events, FINISHED_JOB. -/
def job_full_trace (j : Job) : List Event :=
  Event.started_job j.jid :: Event.started_stage j.jid "activate" ::
    ((async_job j).1 ++ [Event.finished_job j.jid (async_job j).2])

/-- Projection distributes over trace concatenation. -/
theorem lifecycle_of_append (jid : String) (a b : List Event) :
    lifecycle_of jid (a ++ b) = lifecycle_of jid a ++ lifecycle_of jid b := by
  simp [lifecycle_of]

/-- Projection keeps a matching head event. -/
theorem lifecycle_of_cons_pos (jid : String) (e : Event) (tr : List Event)
    (h : lifecycle_event jid e = true) :
    lifecycle_of jid (e :: tr) = e :: lifecycle_of jid tr := by
  simp [lifecycle_of, List.filter_cons, h]

/-- Projection drops a non-matching head event. -/
theorem lifecycle_of_cons_neg (jid : String) (e : Event) (tr : List Event)
    (h : lifecycle_event jid e = false) :
    lifecycle_of jid (e :: tr) = lifecycle_of jid tr := by
  simp [lifecycle_of, List.filter_cons, h]

/-- The events of a stage dispatch all carry the runtime's jid. -/
theorem run_stage_events_jid (jid : String) (s : Stage) :
    ∀ e ∈ (run_stage jid s).1, ∀ x, lifecycle_event x e = (jid == x) := by
  intro e he x
  unfold run_stage at he
  cases hs : s.outcome with
  | ret code =>
      rw [hs] at he
      simp only [List.mem_map] at he
      obtain ⟨c, _, hc⟩ := he
      rw [← hc]
      by_cases h1 : c.1 = true <;> simp [h1, lifecycle_event]
  | raised tb =>
      rw [hs] at he
      simp only [List.mem_append, List.mem_map, List.mem_singleton] at he
      rcases he with ⟨c, _, hc⟩ | hc
      · rw [← hc]
        by_cases h1 : c.1 = true <;> simp [h1, lifecycle_event]
      · rw [hc]; rfl

/-- The runtime's events all carry its jid. -/
theorem async_job_stages_events_jid (jid : String) (cof : Bool) :
    ∀ (stages : List Stage) (acc : Bool),
      ∀ e ∈ (async_job_stages jid cof stages acc).1,
        ∀ x, lifecycle_event x e = (jid == x) := by
  intro stages
  induction stages with
  | nil => intro acc e he; simp [async_job_stages] at he
  | cons s rest ih =>
      intro acc e he x
      by_cases hb : (cof && !acc) = true
      · rw [async_job_stages, if_pos hb] at he
        simp at he
      · rw [async_job_stages_cons jid cof s rest acc
          (Bool.not_eq_true _ ▸ hb)] at he
        rcases List.mem_cons.mp he with h | h
        · rw [h]; rfl
        · rcases List.mem_append.mp h with h1 | h1
          · exact run_stage_events_jid jid s e h1 x
          · rcases List.mem_cons.mp h1 with h2 | h2
            · rw [h2]; rfl
            · exact ih _ e h2 x

/-- Projection of a list of events all carrying the same jid: all or
nothing. -/
theorem lifecycle_of_uniform {jid : String} {evs : List Event}
    (h : ∀ e ∈ evs, ∀ y, lifecycle_event y e = (jid == y)) :
    (lifecycle_of jid evs = evs)
    ∧ (∀ x, jid ≠ x → lifecycle_of x evs = []) := by
  constructor
  · apply List.filter_eq_self.mpr
    intro e he
    rw [h e he jid]
    exact beq_self_eq_true jid
  · intro x hx
    apply List.filter_eq_nil_iff.mpr
    intro e he
    rw [h e he x]
    simp [hx]

/-- Projections of the runtime trace of a job: in full for the job's
own jid, empty for every other. -/
theorem lifecycle_of_async (j : Job) :
    (lifecycle_of j.jid (async_job j).1 = (async_job j).1)
    ∧ (∀ x, j.jid ≠ x → lifecycle_of x (async_job j).1 = []) :=
  lifecycle_of_uniform (fun e he y =>
    async_job_stages_events_jid j.jid j.continue_on_failure j.stages true e he y)

/-- QUEUED_JOB events vanish under the lifecycle projection. -/
theorem lifecycle_of_queued_map (x : String) (l : List Job) :
    lifecycle_of x (l.map (fun j => Event.queued_job j.jid)) = [] := by
  apply List.filter_eq_nil_iff.mpr
  intro e he
  rcases List.mem_map.mp he with ⟨j, _, hj⟩
  rw [← hj]
  simp [lifecycle_event]

/-- Projection of a list of single-job events generated by a map whose
constructor tags each job with its own jid: picks out exactly the
event of the matching job. -/
theorem lifecycle_of_map_single (x : String) (mk : Job → Event)
    (hmk : ∀ j y, lifecycle_event y (mk j) = (j.jid == y)) :
    ∀ (l : List Job), ((l.map Job.jid).Nodup) →
      ((x ∉ l.map Job.jid) → lifecycle_of x (l.map mk) = [])
      ∧ (∀ j ∈ l, j.jid = x → lifecycle_of x (l.map mk) = [mk j]) := by
  intro l
  induction l with
  | nil => intro _; exact ⟨fun _ => rfl, fun j hj => absurd hj (by simp)⟩
  | cons a rest ih =>
      intro hnd
      have hnd' : (rest.map Job.jid).Nodup := (List.nodup_cons.mp hnd).2
      have hna : a.jid ∉ rest.map Job.jid := (List.nodup_cons.mp hnd).1
      constructor
      · intro hx
        have hxa : a.jid ≠ x := by
          intro hcon; exact hx (by rw [← hcon]; exact List.mem_cons_self _ _)
        have hxr : x ∉ rest.map Job.jid := by
          intro hcon; exact hx (List.mem_cons_of_mem _ hcon)
        show lifecycle_of x (mk a :: rest.map mk) = []
        rw [lifecycle_of_cons_neg x (mk a) _
          (by rw [hmk a x]; exact beq_eq_false_iff_ne.mpr hxa)]
        exact (ih hnd').1 hxr
      · intro j hj hjx
        rcases List.mem_cons.mp hj with h | h
        · show lifecycle_of x (mk a :: rest.map mk) = [mk j]
          rw [lifecycle_of_cons_pos x (mk a) _
            (by rw [hmk a x, ← h, hjx]; exact beq_self_eq_true x)]
          have hxr : x ∉ rest.map Job.jid := by
            rw [← hjx, h]; exact hna
          rw [(ih hnd').1 hxr, h]
        · show lifecycle_of x (mk a :: rest.map mk) = [mk j]
          have hax : a.jid ≠ x := by
            intro hcon
            apply hna
            rw [hcon, ← hjx]
            exact List.mem_map_of_mem Job.jid h
          rw [lifecycle_of_cons_neg x (mk a) _
            (by rw [hmk a x]; exact beq_eq_false_iff_ne.mpr hax)]
          exact (ih hnd').2 j h hjx

/-- The pair of events the activation loop emits for each job it
starts. -/
def start_events : List Job → List Event
  | [] => []
  | j :: rest =>
      Event.started_job j.jid :: Event.started_stage j.jid "activate" ::
        start_events rest

/-- The activation loop takes some prefix of the queue, appends it to
the active list and emits STARTED_JOB + STARTED_STAGE 'activate' for
each taken job, in order. -/
theorem activate_loop_spec (mj : Nat) :
    ∀ (queued active : List Job), ∃ taken,
      queued = taken ++ (activate_loop mj queued active).1
      ∧ (activate_loop mj queued active).2.1 = active ++ taken
      ∧ (activate_loop mj queued active).2.2 = start_events taken := by
  intro queued
  induction queued with
  | nil => intro active; exact ⟨[], rfl, by simp [activate_loop], rfl⟩
  | cons j rest ih =>
      intro active
      by_cases hlt : active.length < mj
      · obtain ⟨taken', h1, h2, h3⟩ := ih (active ++ [j])
        refine ⟨j :: taken', ?_, ?_, ?_⟩
        · show j :: rest = (j :: taken') ++ (activate_loop mj (j :: rest) active).1
          rw [activate_loop, if_pos hlt]
          show j :: rest = j :: (taken' ++ _)
          exact congrArg (List.cons j) h1
        · show (activate_loop mj (j :: rest) active).2.1 = active ++ j :: taken'
          rw [activate_loop, if_pos hlt]
          simp only []
          rw [h2, List.append_assoc]
          rfl
        · show (activate_loop mj (j :: rest) active).2.2 = start_events (j :: taken')
          rw [activate_loop, if_pos hlt]
          simp only []
          rw [h3]
          rfl
      · refine ⟨[], ?_, ?_, ?_⟩ <;> rw [activate_loop, if_neg hlt] <;>
          simp [start_events]

/-- Projection of the activation events: the started pair for a taken
job's jid, nothing for any other jid. -/
theorem start_events_proj (x : String) :
    ∀ (taken : List Job), ((taken.map Job.jid).Nodup) →
      ((x ∉ taken.map Job.jid) → lifecycle_of x (start_events taken) = [])
      ∧ (∀ j ∈ taken, j.jid = x →
          lifecycle_of x (start_events taken)
            = [Event.started_job x, Event.started_stage x "activate"]) := by
  intro taken
  induction taken with
  | nil => intro _; exact ⟨fun _ => rfl, fun j hj => absurd hj (by simp)⟩
  | cons a rest ih =>
      intro hnd
      have hnd' : (rest.map Job.jid).Nodup := (List.nodup_cons.mp hnd).2
      have hna : a.jid ∉ rest.map Job.jid := (List.nodup_cons.mp hnd).1
      constructor
      · intro hx
        have hxa : a.jid ≠ x := by
          intro hcon; exact hx (by rw [← hcon]; exact List.mem_cons_self _ _)
        have hxr : x ∉ rest.map Job.jid := by
          intro hcon; exact hx (List.mem_cons_of_mem _ hcon)
        show lifecycle_of x (Event.started_job a.jid ::
          Event.started_stage a.jid "activate" :: start_events rest) = []
        rw [lifecycle_of_cons_neg x _ _
            (by show (a.jid == x) = false; exact beq_eq_false_iff_ne.mpr hxa),
          lifecycle_of_cons_neg x _ _
            (by show (a.jid == x) = false; exact beq_eq_false_iff_ne.mpr hxa)]
        exact (ih hnd').1 hxr
      · intro j hj hjx
        rcases List.mem_cons.mp hj with h | h
        · show lifecycle_of x (Event.started_job a.jid ::
            Event.started_stage a.jid "activate" :: start_events rest)
            = [Event.started_job x, Event.started_stage x "activate"]
          have hax : a.jid = x := by rw [← h]; exact hjx
          rw [lifecycle_of_cons_pos x _ _
              (by show (a.jid == x) = true; rw [hax]; exact beq_self_eq_true x),
            lifecycle_of_cons_pos x _ _
              (by show (a.jid == x) = true; rw [hax]; exact beq_self_eq_true x)]
          have hxr : x ∉ rest.map Job.jid := by rw [← hax]; exact hna
          rw [(ih hnd').1 hxr, hax]
        · show lifecycle_of x (Event.started_job a.jid ::
            Event.started_stage a.jid "activate" :: start_events rest)
            = [Event.started_job x, Event.started_stage x "activate"]
          have hax : a.jid ≠ x := by
            intro hcon
            apply hna
            rw [hcon, ← hjx]
            exact List.mem_map_of_mem Job.jid h
          rw [lifecycle_of_cons_neg x _ _
              (by show (a.jid == x) = false; exact beq_eq_false_iff_ne.mpr hax),
            lifecycle_of_cons_neg x _ _
              (by show (a.jid == x) = false; exact beq_eq_false_iff_ne.mpr hax)]
          exact (ih hnd').2 j h hjx

/-- Distinct jids make `Job.jid` injective on a list. -/
theorem jid_inj {l : List Job} (h : (l.map Job.jid).Nodup) :
    ∀ a ∈ l, ∀ b ∈ l, a.jid = b.jid → a = b :=
  List.inj_on_of_nodup_map h

/-- The two parts of a `split` carry disjoint jids when the input's
jids are distinct. -/
theorem split_parts_disjoint {cond : Job → Bool} {l : List Job}
    (h : (l.map Job.jid).Nodup) :
    ∀ a ∈ (split cond l).1, ∀ b ∈ (split cond l).2, a.jid ≠ b.jid := by
  intro a ha b hb heq
  have ha' := List.mem_filter.mp ha
  have hb' := List.mem_filter.mp hb
  have hab : a = b := jid_inj h a ha'.1 b hb'.1 heq
  rw [hab] at ha'
  rw [ha'.2] at hb'
  simp at hb'

/-- The pending jobs surviving the abandonment loop form a sublist of
the original pending list. -/
theorem abandon_deps_loop_pending_sublist (f : String) :
    ∀ (n : Nat) (wl : List String) (pending : List Job),
      wl.length + 2 * pending.length ≤ n →
      List.Sublist (abandon_deps_loop f wl pending).2.2 pending := by
  intro n
  induction n using Nat.strong_induction_on with
  | _ n ih =>
    intro wl pending hn
    cases wl with
    | nil =>
        rw [abandon_deps_loop]
    | cons aid rest =>
        rw [abandon_deps_loop_cons]
        exact List.Sublist.trans
          (ih _ (Nat.lt_of_lt_of_le (abandon_measure_lt aid rest pending) hn)
            _ _ (le_refl _))
          (List.filter_sublist pending)

/-- Every job the abandonment loop abandons comes from the pending
list. -/
theorem abandon_deps_loop_result_mem (f : String) :
    ∀ (n : Nat) (wl : List String) (pending : List Job),
      wl.length + 2 * pending.length ≤ n →
      ∀ j ∈ (abandon_deps_loop f wl pending).1, j ∈ pending := by
  intro n
  induction n using Nat.strong_induction_on with
  | _ n ih =>
    intro wl pending hn j hj
    cases wl with
    | nil =>
        rw [abandon_deps_loop] at hj
        simp at hj
    | cons aid rest =>
        rw [abandon_deps_loop_cons] at hj
        rcases List.mem_append.mp hj with h | h
        · exact (List.mem_filter.mp h).1
        · exact (List.filter_sublist pending).mem
            (ih _ (Nat.lt_of_lt_of_le (abandon_measure_lt aid rest pending) hn)
              _ _ (le_refl _) j h)

/-- Every pending job either gets abandoned by the loop or survives
it. -/
theorem abandon_deps_loop_partition (f : String) :
    ∀ (n : Nat) (wl : List String) (pending : List Job),
      wl.length + 2 * pending.length ≤ n →
      ∀ j ∈ pending,
        j ∈ (abandon_deps_loop f wl pending).1
        ∨ j ∈ (abandon_deps_loop f wl pending).2.2 := by
  intro n
  induction n using Nat.strong_induction_on with
  | _ n ih =>
    intro wl pending hn j hj
    cases wl with
    | nil =>
        rw [abandon_deps_loop]
        exact Or.inr hj
    | cons aid rest =>
        rw [abandon_deps_loop_cons]
        cases hjd : j.deps.contains aid with
        | true =>
            exact Or.inl (List.mem_append_left _ (List.mem_filter.mpr ⟨hj, hjd⟩))
        | false =>
            have hj2 : j ∈ (split (fun j => j.deps.contains aid) pending).2 :=
              List.mem_filter.mpr ⟨hj, by
                show (!(j.deps.contains aid)) = true
                rw [hjd]; rfl⟩
            rcases ih _ (Nat.lt_of_lt_of_le (abandon_measure_lt aid rest pending) hn)
                _ _ (le_refl _) j hj2 with h | h
            · exact Or.inl (List.mem_append_right _ h)
            · exact Or.inr h

/-- Per-jid projection of the abandonment loop's events: exactly one
DEP_FAILED event for each abandoned job's jid, nothing for any other
jid. -/
theorem abandon_deps_loop_events_proj (f : String) :
    ∀ (n : Nat) (wl : List String) (pending : List Job),
      wl.length + 2 * pending.length ≤ n →
      ((pending.map Job.jid).Nodup) → ∀ x,
      ((∀ j ∈ (abandon_deps_loop f wl pending).1, j.jid ≠ x) →
        lifecycle_of x (abandon_deps_loop f wl pending).2.1 = [])
      ∧ (∀ j ∈ (abandon_deps_loop f wl pending).1, j.jid = x →
          ∃ aid, lifecycle_of x (abandon_deps_loop f wl pending).2.1
            = [Event.abandoned_job x (AbandonReason.dep_failed aid f)]) := by
  intro n
  induction n using Nat.strong_induction_on with
  | _ n ih =>
    intro wl pending hn hnd x
    cases wl with
    | nil =>
        rw [abandon_deps_loop]
        exact ⟨fun _ => rfl, fun j hj => absurd hj (by simp)⟩
    | cons aid rest =>
        have hmlt := Nat.lt_of_lt_of_le (abandon_measure_lt aid rest pending) hn
        have hnd1 : (((split (fun j => j.deps.contains aid) pending).1.map
            Job.jid).Nodup) :=
          hnd.sublist ((List.filter_sublist pending).map Job.jid)
        have hnd2 : (((split (fun j => j.deps.contains aid) pending).2.map
            Job.jid).Nodup) :=
          hnd.sublist ((List.filter_sublist pending).map Job.jid)
        have hmk : ∀ (j : Job) (y : String),
            lifecycle_event y
              (Event.abandoned_job j.jid (AbandonReason.dep_failed aid f))
            = (j.jid == y) := fun j y => rfl
        have hms := lifecycle_of_map_single x
          (fun j => Event.abandoned_job j.jid (AbandonReason.dep_failed aid f))
          hmk (split (fun j => j.deps.contains aid) pending).1 hnd1
        have hrec := ih _ hmlt _ (split (fun j => j.deps.contains aid) pending).2
          (le_refl _) hnd2 x
        have hrecmem : ∀ k ∈ (abandon_deps_loop f
            (rest ++ ((split (fun j => j.deps.contains aid) pending).1.map Job.jid))
            (split (fun j => j.deps.contains aid) pending).2).1,
            k ∈ (split (fun j => j.deps.contains aid) pending).2 :=
          fun k hk => abandon_deps_loop_result_mem f _ _ _ (le_refl _) k hk
        rw [abandon_deps_loop_cons]
        constructor
        · intro hnone
          rw [lifecycle_of_append]
          have h1 : lifecycle_of x
              ((split (fun j => j.deps.contains aid) pending).1.map
                (fun j => Event.abandoned_job j.jid
                  (AbandonReason.dep_failed aid f))) = [] := by
            apply hms.1
            intro hcon
            rcases List.mem_map.mp hcon with ⟨j, hjmem, hjx⟩
            exact hnone j (List.mem_append_left _ hjmem) hjx
          have h2 : lifecycle_of x (abandon_deps_loop f
              (rest ++ ((split (fun j => j.deps.contains aid) pending).1.map Job.jid))
              (split (fun j => j.deps.contains aid) pending).2).2.1 = [] := by
            apply hrec.1
            intro k hk
            exact hnone k (List.mem_append_right _ hk)
          rw [h1, h2]
          rfl
        · intro j hj hjx
          rw [lifecycle_of_append]
          rcases List.mem_append.mp hj with hjp | hjr
          · have h1 := hms.2 j hjp hjx
            have h2 : lifecycle_of x (abandon_deps_loop f
                (rest ++ ((split (fun j => j.deps.contains aid) pending).1.map Job.jid))
                (split (fun j => j.deps.contains aid) pending).2).2.1 = [] := by
              apply hrec.1
              intro k hk hkx
              exact split_parts_disjoint hnd j hjp k (hrecmem k hk)
                (by rw [hjx, hkx])
            refine ⟨aid, ?_⟩
            rw [h1, h2]
            simp [hjx]
          · obtain ⟨aid', ha'⟩ := hrec.2 j hjr hjx
            have h1 : lifecycle_of x
                ((split (fun j => j.deps.contains aid) pending).1.map
                  (fun j => Event.abandoned_job j.jid
                    (AbandonReason.dep_failed aid f))) = [] := by
              apply hms.1
              intro hcon
              rcases List.mem_map.mp hcon with ⟨k, hkmem, hkx⟩
              exact split_parts_disjoint hnd k hkmem j (hrecmem j hjr)
                (by rw [hkx, hjx])
            refine ⟨aid', ?_⟩
            rw [h1, ha']
            simp

/-- The jids of the jobs that are still live (pending, queued or
active). -/
def live_jids (st : ExecutorState) : List String :=
  (st.pending_jobs ++ st.queued_jobs ++ st.active_jobs).map Job.jid

/-- Well-formedness of a scheduler state: the live jobs carry pairwise
distinct jids (the spec's uniqueness invariant restricted to the jobs
that can still emit events). -/
def WFst (st : ExecutorState) : Prop := (live_jids st).Nodup

/-- Unpacking the well-formedness of a state whose active list starts
with `jc`. -/
theorem wf_destruct (st : ExecutorState) (jc : Job) (rest : List Job)
    (hact : st.active_jobs = jc :: rest) (hwf : WFst st) :
    ((st.pending_jobs.map Job.jid).Nodup)
    ∧ ((st.queued_jobs.map Job.jid).Nodup)
    ∧ ((rest.map Job.jid).Nodup)
    ∧ jc.jid ∉ st.pending_jobs.map Job.jid
    ∧ jc.jid ∉ st.queued_jobs.map Job.jid
    ∧ jc.jid ∉ rest.map Job.jid
    ∧ (∀ a ∈ st.pending_jobs, a.jid ∉ st.queued_jobs.map Job.jid)
    ∧ (∀ a ∈ st.pending_jobs, a.jid ∉ rest.map Job.jid)
    ∧ (∀ a ∈ st.queued_jobs, a.jid ∉ rest.map Job.jid) := by
  unfold WFst live_jids at hwf
  rw [hact] at hwf
  simp only [List.map_append, List.nodup_append, List.map_cons,
    List.nodup_cons, List.disjoint_cons_right, List.mem_append,
    List.mem_cons, List.disjoint_append_left] at hwf
  obtain ⟨⟨hndP, hndQ, hPQ⟩, ⟨hjcR, hndR⟩, ⟨hjcPQ, hPR, hQR⟩⟩ := hwf
  refine ⟨hndP, hndQ, hndR, ?_, ?_, hjcR, ?_, ?_, ?_⟩
  · intro hcon
    exact hjcPQ (Or.inl hcon)
  · intro hcon
    exact hjcPQ (Or.inr hcon)
  · intro a ha hcon
    exact hPQ (List.mem_map_of_mem Job.jid ha) hcon
  · intro a ha hcon
    exact hPR (List.mem_map_of_mem Job.jid ha) hcon
  · intro a ha hcon
    exact hQR (List.mem_map_of_mem Job.jid ha) hcon

/-- Every job of a list lands in one of the two parts of a `split` of
it. -/
theorem split_mem_or (cond : Job → Bool) (l : List Job) :
    ∀ j ∈ l, j ∈ (split cond l).1 ∨ j ∈ (split cond l).2 := by
  intro j hj
  cases hc : cond j with
  | true => exact Or.inl (List.mem_filter.mpr ⟨hj, hc⟩)
  | false =>
      exact Or.inr (List.mem_filter.mpr ⟨hj, by
        show (!cond j) = true
        rw [hc]; rfl⟩)

/-- Both parts of a `split` are made of jobs of the input. -/
theorem split_sub_left (cond : Job → Bool) (l : List Job) :
    ∀ j ∈ (split cond l).1, j ∈ l := fun _ hj => (List.mem_filter.mp hj).1

/-- Both parts of a `split` are made of jobs of the input. -/
theorem split_sub_right (cond : Job → Bool) (l : List Job) :
    ∀ j ∈ (split cond l).2, j ∈ l := fun _ hj => (List.mem_filter.mp hj).1

/-- Filtering out a jid foreign to a list leaves it unchanged. -/
theorem filter_ne_eq_of_not_mem {jid : String} {l : List Job}
    (h : jid ∉ l.map Job.jid) :
    l.filter (fun j => !(j.jid == jid)) = l := by
  apply List.filter_eq_self.mpr
  intro j hj
  have hne : j.jid ≠ jid := fun hcon =>
    h (hcon ▸ List.mem_map_of_mem Job.jid hj)
  simp [hne]

/-- Deleting the completed job from the active dict removes exactly
its head entry. -/
theorem active_filter_eq (st : ExecutorState) (jc : Job) (rest : List Job)
    (hact : st.active_jobs = jc :: rest) (hrest : jc.jid ∉ rest.map Job.jid) :
    st.active_jobs.filter (fun j => !(j.jid == jc.jid)) = rest := by
  rw [hact, List.filter_cons]
  rw [show (!(jc.jid == jc.jid)) = false by simp]
  simp only [Bool.false_eq_true, if_false]
  exact filter_ne_eq_of_not_mem hrest

/-- The shape `handle_completion` computes when no abandonment
happens: delete from active, record completion, promote. -/
def promo_result (st : ExecutorState) (job_id : String) (succ : Bool) :
    ExecutorState × List Event :=
  ({ pending_jobs := (split (fun j => j.all_deps_completed
        (dict_set st.completed_jobs job_id succ)) st.pending_jobs).2
    , queued_jobs := st.queued_jobs ++ (split (fun j => j.all_deps_completed
        (dict_set st.completed_jobs job_id succ)) st.pending_jobs).1
    , active_jobs := st.active_jobs.filter (fun j => !(j.jid == job_id))
    , completed_jobs := dict_set st.completed_jobs job_id succ
    , abandoned_jobs := st.abandoned_jobs },
   Event.finished_job job_id succ ::
     ((split (fun j => j.all_deps_completed
        (dict_set st.completed_jobs job_id succ)) st.pending_jobs).1.map
        (fun j => Event.queued_job j.jid)))

/-- The success branch of `handle_completion`: no abandonment, only
promotion. -/
theorem handle_completion_eq_success (cof cwd : Bool) (st : ExecutorState)
    (job_id : String) :
    handle_completion cof cwd st job_id true = promo_result st job_id true := rfl

/-- The `continue_without_deps = true` failure branch of
`handle_completion`: no propagation, same shape as success. -/
theorem handle_completion_eq_nodeps (st : ExecutorState) (job_id : String) :
    handle_completion true true st job_id false
      = promo_result st job_id false := rfl

/-- The `continue_on_failure = false` failure branch of
`handle_completion`: queued and pending are drained with PEER_FAILED
events. -/
theorem handle_completion_eq_peer (cwd : Bool) (st : ExecutorState)
    (job_id : String) :
    handle_completion false cwd st job_id false =
      ({ pending_jobs := [], queued_jobs := []
        , active_jobs := st.active_jobs.filter (fun j => !(j.jid == job_id))
        , completed_jobs := dict_set st.completed_jobs job_id false
        , abandoned_jobs := st.abandoned_jobs
            ++ (st.queued_jobs ++ st.pending_jobs) },
       Event.finished_job job_id false ::
         (st.queued_jobs ++ st.pending_jobs).map (fun j =>
           Event.abandoned_job j.jid (AbandonReason.peer_failed job_id))) := by
  simp [handle_completion, split]

/-- The `continue_without_deps = false` failure branch of
`handle_completion`: the transitive-abandonment loop runs over
pending, then promotion runs over its survivors. -/
theorem handle_completion_eq_dep (st : ExecutorState) (job_id : String) :
    handle_completion true false st job_id false =
      ({ pending_jobs := (split (fun j => j.all_deps_completed
            (dict_set st.completed_jobs job_id false))
            (abandon_deps_loop job_id [job_id] st.pending_jobs).2.2).2
        , queued_jobs := st.queued_jobs ++ (split (fun j => j.all_deps_completed
            (dict_set st.completed_jobs job_id false))
            (abandon_deps_loop job_id [job_id] st.pending_jobs).2.2).1
        , active_jobs := st.active_jobs.filter (fun j => !(j.jid == job_id))
        , completed_jobs := dict_set st.completed_jobs job_id false
        , abandoned_jobs := st.abandoned_jobs
            ++ (abandon_deps_loop job_id [job_id] st.pending_jobs).1 },
       Event.finished_job job_id false ::
         ((abandon_deps_loop job_id [job_id] st.pending_jobs).2.1
           ++ ((split (fun j => j.all_deps_completed
             (dict_set st.completed_jobs job_id false))
             (abandon_deps_loop job_id [job_id] st.pending_jobs).2.2).1.map
             (fun j => Event.queued_job j.jid)))) := rfl

/-- Projection over a map of single-job events is empty when no
mapped job matches the jid. -/
theorem lifecycle_of_map_nil (x : String) (mk : Job → Event)
    (hmk : ∀ j y, lifecycle_event y (mk j) = (j.jid == y))
    (l : List Job) (h : ∀ j ∈ l, j.jid ≠ x) :
    lifecycle_of x (l.map mk) = [] := by
  apply List.filter_eq_nil_iff.mpr
  intro e he
  rcases List.mem_map.mp he with ⟨j, hj, hje⟩
  rw [← hje, hmk j x]
  simp [h j hj]

/-- A job abandoned by the worklist loop does not also survive it. -/
theorem abandon_deps_loop_exclusive (f : String) :
    ∀ (n : Nat) (wl : List String) (pending : List Job),
      wl.length + 2 * pending.length ≤ n →
      ∀ j ∈ (abandon_deps_loop f wl pending).1,
        j ∉ (abandon_deps_loop f wl pending).2.2 := by
  intro n
  induction n using Nat.strong_induction_on with
  | _ n ih =>
    intro wl pending hn j hj hj2
    cases wl with
    | nil =>
        rw [abandon_deps_loop] at hj
        simp at hj
    | cons aid rest =>
        rw [abandon_deps_loop_cons] at hj hj2
        have hsub2 := abandon_deps_loop_pending_sublist f
          ((rest ++ ((split (fun j => j.deps.contains aid) pending).1.map Job.jid)).length
            + 2 * (split (fun j => j.deps.contains aid) pending).2.length)
          (rest ++ ((split (fun j => j.deps.contains aid) pending).1.map Job.jid))
          (split (fun j => j.deps.contains aid) pending).2 (le_refl _)
        rcases List.mem_append.mp hj with h1 | h2
        · have hc1 : j.deps.contains aid = true := by
            have := (List.mem_filter.mp h1).2
            simpa using this
          have hj2' : j ∈ (split (fun j => j.deps.contains aid) pending).2 :=
            hsub2.mem hj2
          have hc2 : (!(j.deps.contains aid)) = true := by
            have := (List.mem_filter.mp hj2').2
            simpa using this
          rw [hc1] at hc2
          simp at hc2
        · exact ih _ (Nat.lt_of_lt_of_le (abandon_measure_lt aid rest pending) hn)
            _ _ (le_refl _) j h2 hj2

/-- Membership of a jid in the live set, componentwise. -/
theorem mem_live_iff (st : ExecutorState) (x : String) :
    x ∈ live_jids st ↔
      x ∈ st.pending_jobs.map Job.jid ∨ x ∈ st.queued_jobs.map Job.jid
        ∨ x ∈ st.active_jobs.map Job.jid := by
  unfold live_jids
  simp [List.map_append, List.mem_append, or_assoc]

/-- jid-level membership transfer along a job-level inclusion. -/
theorem mem_map_jid_sub {l1 l2 : List Job} (h : ∀ j ∈ l1, j ∈ l2) {x : String}
    (hx : x ∈ l1.map Job.jid) : x ∈ l2.map Job.jid := by
  rcases List.mem_map.mp hx with ⟨j, hj, hjx⟩
  exact hjx ▸ List.mem_map_of_mem Job.jid (h j hj)

/-- Promotion rearranges the live jobs without duplicating jids. -/
theorem promo_nodup (P Q R : List Job) (c : Job → Bool)
    (h : ((P ++ Q ++ R).map Job.jid).Nodup) :
    ((((split c P).2 ++ (Q ++ (split c P).1) ++ R)).map Job.jid).Nodup := by
  have h1 : List.Perm P ((split c P).1 ++ (split c P).2) :=
    (List.filter_append_perm c P).symm
  have h2 : List.Perm ((split c P).1 ++ (split c P).2)
      ((split c P).2 ++ (split c P).1) := List.perm_append_comm
  have h3 : List.Perm (P ++ Q) (((split c P).2 ++ (split c P).1) ++ Q) :=
    List.Perm.append_right Q (h1.trans h2)
  have h4 : List.Perm (((split c P).2 ++ (split c P).1) ++ Q)
      ((split c P).2 ++ (Q ++ (split c P).1)) := by
    rw [List.append_assoc]
    exact List.Perm.append_left _ List.perm_append_comm
  have h5 : List.Perm (P ++ Q ++ R)
      (((split c P).2 ++ (Q ++ (split c P).1)) ++ R) :=
    List.Perm.append_right R (h3.trans h4)
  exact (h5.map Job.jid).nodup h

/-- Replacing the pending list with a sublist of it keeps the live
jids distinct. -/
theorem nodup_replace_pending {Pm P Q R : List Job}
    (hsub : List.Sublist Pm P)
    (h : ((P ++ Q ++ R).map Job.jid).Nodup) :
    ((Pm ++ Q ++ R).map Job.jid).Nodup :=
  h.sublist (((hsub.append (List.Sublist.refl Q)).append
    (List.Sublist.refl R)).map Job.jid)

/-- Full characterization of the promotion-only completion shape:
active loses exactly the completed job, the completed job's lifecycle
contribution is its FINISHED_JOB event, every queued or pending job
stays live and silent, foreign jids stay foreign and silent, and
well-formedness is preserved. -/
theorem promo_result_proj (st : ExecutorState) (jc : Job) (rest : List Job)
    (succ : Bool)
    (hact : st.active_jobs = jc :: rest) (hwf : WFst st) :
    (promo_result st jc.jid succ).1.active_jobs = rest
    ∧ lifecycle_of jc.jid (promo_result st jc.jid succ).2
        = [Event.finished_job jc.jid succ]
    ∧ (∀ j, (j ∈ st.pending_jobs ∨ j ∈ st.queued_jobs) →
        (j ∈ (promo_result st jc.jid succ).1.pending_jobs
          ∨ j ∈ (promo_result st jc.jid succ).1.queued_jobs)
        ∧ lifecycle_of j.jid (promo_result st jc.jid succ).2 = [])
    ∧ (∀ x, x ∉ live_jids st →
        lifecycle_of x (promo_result st jc.jid succ).2 = []
        ∧ x ∉ live_jids (promo_result st jc.jid succ).1)
    ∧ WFst (promo_result st jc.jid succ).1
    ∧ jc.jid ∉ live_jids (promo_result st jc.jid succ).1 := by
  obtain ⟨hndP, hndQ, hndR, hjcP, hjcQ, hjcR, hPQ, hPR, hQR⟩ :=
    wf_destruct st jc rest hact hwf
  have hsplit1 := split_sub_left (fun j => j.all_deps_completed
    (dict_set st.completed_jobs jc.jid succ)) st.pending_jobs
  have hsplit2 := split_sub_right (fun j => j.all_deps_completed
    (dict_set st.completed_jobs jc.jid succ)) st.pending_jobs
  have hlive : ∀ x, x ∈ live_jids (promo_result st jc.jid succ).1 →
      x ∈ st.pending_jobs.map Job.jid ∨ x ∈ st.queued_jobs.map Job.jid
        ∨ x ∈ rest.map Job.jid := by
    intro x hx
    rcases (mem_live_iff _ x).mp hx with h | h | h
    · exact Or.inl (mem_map_jid_sub hsplit2 h)
    · have h' : x ∈ (st.queued_jobs
          ++ (split (fun j => j.all_deps_completed
            (dict_set st.completed_jobs jc.jid succ))
            st.pending_jobs).1).map Job.jid := h
      rcases List.mem_map.mp h' with ⟨j, hj, hjx⟩
      rcases List.mem_append.mp hj with h1 | h1
      · exact Or.inr (Or.inl (hjx ▸ List.mem_map_of_mem Job.jid h1))
      · exact Or.inl (hjx ▸ List.mem_map_of_mem Job.jid (hsplit1 j h1))
    · have h' : x ∈ (st.active_jobs.filter
          (fun j => !(j.jid == jc.jid))).map Job.jid := h
      rw [active_filter_eq st jc rest hact hjcR] at h'
      exact Or.inr (Or.inr h')
  refine ⟨active_filter_eq st jc rest hact hjcR, ?_, ?_, ?_, ?_, ?_⟩
  · show lifecycle_of jc.jid (Event.finished_job jc.jid succ :: _) = _
    rw [lifecycle_of_cons_pos jc.jid _ _
      (by show (jc.jid == jc.jid) = true; exact beq_self_eq_true jc.jid)]
    rw [lifecycle_of_queued_map]
  · intro j hj
    constructor
    · rcases hj with hjp | hjq
      · rcases split_mem_or (fun j => j.all_deps_completed
            (dict_set st.completed_jobs jc.jid succ)) st.pending_jobs j hjp
          with h | h
        · exact Or.inr (List.mem_append_right _ h)
        · exact Or.inl h
      · exact Or.inr (List.mem_append_left _ hjq)
    · have hne : jc.jid ≠ j.jid := by
        intro hcon
        rcases hj with hjp | hjq
        · exact hjcP (hcon ▸ List.mem_map_of_mem Job.jid hjp)
        · exact hjcQ (hcon ▸ List.mem_map_of_mem Job.jid hjq)
      show lifecycle_of j.jid (Event.finished_job jc.jid succ :: _) = _
      rw [lifecycle_of_cons_neg j.jid _ _
        (by show (jc.jid == j.jid) = false; exact beq_eq_false_iff_ne.mpr hne)]
      rw [lifecycle_of_queued_map]
  · intro x hx
    have hne : jc.jid ≠ x := by
      intro hcon
      apply hx
      rw [mem_live_iff, hact]
      exact Or.inr (Or.inr (hcon ▸ List.mem_map_of_mem Job.jid
        (List.mem_cons_self jc rest)))
    constructor
    · show lifecycle_of x (Event.finished_job jc.jid succ :: _) = _
      rw [lifecycle_of_cons_neg x _ _
        (by show (jc.jid == x) = false; exact beq_eq_false_iff_ne.mpr hne)]
      rw [lifecycle_of_queued_map]
    · intro hcon
      apply hx
      rw [mem_live_iff, hact]
      rcases hlive x hcon with h | h | h
      · exact Or.inl h
      · exact Or.inr (Or.inl h)
      · exact Or.inr (Or.inr (List.map_cons Job.jid jc rest ▸
          List.mem_cons_of_mem jc.jid h))
  · show (live_jids (promo_result st jc.jid succ).1).Nodup
    unfold live_jids
    have hnodup0 : ((st.pending_jobs ++ st.queued_jobs ++ rest).map Job.jid).Nodup := by
      have : WFst st := hwf
      unfold WFst live_jids at this
      rw [hact] at this
      exact this.sublist ((((List.Sublist.refl st.pending_jobs).append
        (List.Sublist.refl st.queued_jobs)).append
        (List.sublist_cons_self jc rest)).map Job.jid)
    have := promo_nodup st.pending_jobs st.queued_jobs rest
      (fun j => j.all_deps_completed (dict_set st.completed_jobs jc.jid succ))
      hnodup0
    show ((_ ++ (st.queued_jobs ++ _) ++ (st.active_jobs.filter _)).map Job.jid).Nodup
    rw [active_filter_eq st jc rest hact hjcR]
    exact this
  · intro hcon
    rcases hlive jc.jid hcon with h | h | h
    · exact hjcP h
    · exact hjcQ h
    · exact hjcR h

/-- Full characterization of the PEER_FAILED drain branch: the
completed job contributes its FINISHED_JOB event, every queued or
pending job is abandoned with exactly one PEER_FAILED event carrying
the failed job's id and leaves the live set, foreign jids stay
foreign and silent, and well-formedness is preserved. -/
theorem peer_result_proj (cwd : Bool) (st : ExecutorState) (jc : Job)
    (rest : List Job)
    (hact : st.active_jobs = jc :: rest) (hwf : WFst st) :
    (handle_completion false cwd st jc.jid false).1.active_jobs = rest
    ∧ lifecycle_of jc.jid (handle_completion false cwd st jc.jid false).2
        = [Event.finished_job jc.jid false]
    ∧ (∀ j, (j ∈ st.pending_jobs ∨ j ∈ st.queued_jobs) →
        lifecycle_of j.jid (handle_completion false cwd st jc.jid false).2
          = [Event.abandoned_job j.jid (AbandonReason.peer_failed jc.jid)]
        ∧ j.jid ∉ live_jids (handle_completion false cwd st jc.jid false).1)
    ∧ (∀ x, x ∉ live_jids st →
        lifecycle_of x (handle_completion false cwd st jc.jid false).2 = []
        ∧ x ∉ live_jids (handle_completion false cwd st jc.jid false).1)
    ∧ WFst (handle_completion false cwd st jc.jid false).1
    ∧ jc.jid ∉ live_jids (handle_completion false cwd st jc.jid false).1 := by
  obtain ⟨hndP, hndQ, hndR, hjcP, hjcQ, hjcR, hPQ, hPR, hQR⟩ :=
    wf_destruct st jc rest hact hwf
  rw [handle_completion_eq_peer cwd st jc.jid]
  have hmk : ∀ (j : Job) (y : String),
      lifecycle_event y
        (Event.abandoned_job j.jid (AbandonReason.peer_failed jc.jid))
      = (j.jid == y) := fun j y => rfl
  have hndQP : (((st.queued_jobs ++ st.pending_jobs).map Job.jid).Nodup) := by
    rw [List.map_append]
    apply List.nodup_append.mpr
    refine ⟨hndQ, hndP, ?_⟩
    intro a haq hap
    rcases List.mem_map.mp hap with ⟨b, hb, hba⟩
    exact hPQ b hb (hba ▸ haq)
  have hliveres : live_jids
      ({ pending_jobs := [], queued_jobs := []
        , active_jobs := st.active_jobs.filter (fun j => !(j.jid == jc.jid))
        , completed_jobs := dict_set st.completed_jobs jc.jid false
        , abandoned_jobs := st.abandoned_jobs
            ++ (st.queued_jobs ++ st.pending_jobs) } : ExecutorState)
      = rest.map Job.jid := by
    show (([] ++ [] ++ st.active_jobs.filter
      (fun (j : Job) => !(j.jid == jc.jid))).map Job.jid) = _
    rw [active_filter_eq st jc rest hact hjcR]
    rfl
  refine ⟨active_filter_eq st jc rest hact hjcR, ?_, ?_, ?_, ?_, ?_⟩
  · show lifecycle_of jc.jid (Event.finished_job jc.jid false :: _) = _
    have hnil : lifecycle_of jc.jid ((st.queued_jobs ++ st.pending_jobs).map
        (fun j => Event.abandoned_job j.jid
          (AbandonReason.peer_failed jc.jid))) = [] := by
      apply lifecycle_of_map_nil jc.jid _ hmk
      intro j hj hcon
      rcases List.mem_append.mp hj with h | h
      · exact hjcQ (hcon ▸ List.mem_map_of_mem Job.jid h)
      · exact hjcP (hcon ▸ List.mem_map_of_mem Job.jid h)
    rw [lifecycle_of_cons_pos jc.jid _ _
      (by show (jc.jid == jc.jid) = true; exact beq_self_eq_true jc.jid)]
    rw [hnil]
  · intro j hj
    have hjQP : j ∈ st.queued_jobs ++ st.pending_jobs := by
      rcases hj with h | h
      · exact List.mem_append_right _ h
      · exact List.mem_append_left _ h
    have hne : jc.jid ≠ j.jid := by
      intro hcon
      rcases hj with h | h
      · exact hjcP (hcon ▸ List.mem_map_of_mem Job.jid h)
      · exact hjcQ (hcon ▸ List.mem_map_of_mem Job.jid h)
    constructor
    · show lifecycle_of j.jid (Event.finished_job jc.jid false :: _) = _
      rw [lifecycle_of_cons_neg j.jid _ _
        (by show (jc.jid == j.jid) = false; exact beq_eq_false_iff_ne.mpr hne)]
      rw [(lifecycle_of_map_single j.jid _ hmk
        (st.queued_jobs ++ st.pending_jobs) hndQP).2 j hjQP rfl]
    · rw [hliveres]
      intro hcon
      rcases hj with h | h
      · exact hPR j h hcon
      · exact hQR j h hcon
  · intro x hx
    have hne : jc.jid ≠ x := by
      intro hcon
      apply hx
      rw [mem_live_iff, hact]
      exact Or.inr (Or.inr (hcon ▸ List.mem_map_of_mem Job.jid
        (List.mem_cons_self jc rest)))
    constructor
    · show lifecycle_of x (Event.finished_job jc.jid false :: _) = _
      have hnil : lifecycle_of x ((st.queued_jobs ++ st.pending_jobs).map
          (fun j => Event.abandoned_job j.jid
            (AbandonReason.peer_failed jc.jid))) = [] := by
        apply lifecycle_of_map_nil x _ hmk
        intro j hj hcon
        apply hx
        rw [mem_live_iff]
        rcases List.mem_append.mp hj with h | h
        · exact Or.inr (Or.inl (hcon ▸ List.mem_map_of_mem Job.jid h))
        · exact Or.inl (hcon ▸ List.mem_map_of_mem Job.jid h)
      rw [lifecycle_of_cons_neg x _ _
        (by show (jc.jid == x) = false; exact beq_eq_false_iff_ne.mpr hne)]
      rw [hnil]
    · rw [hliveres]
      intro hcon
      apply hx
      rw [mem_live_iff, hact]
      exact Or.inr (Or.inr (List.map_cons Job.jid jc rest ▸
        List.mem_cons_of_mem jc.jid hcon))
  · show (live_jids _).Nodup
    rw [hliveres]
    exact hndR
  · rw [hliveres]
    exact hjcR

/-- Full characterization of the DEP_FAILED propagation branch: the
completed job contributes its FINISHED_JOB event; every queued job and
every surviving pending job stays live and silent; every pending job
the worklist abandons gets exactly one DEP_FAILED event and leaves the
live set; foreign jids stay foreign and silent; well-formedness is
preserved. -/
theorem dep_result_proj (st : ExecutorState) (jc : Job) (rest : List Job)
    (hact : st.active_jobs = jc :: rest) (hwf : WFst st) :
    (handle_completion true false st jc.jid false).1.active_jobs = rest
    ∧ lifecycle_of jc.jid (handle_completion true false st jc.jid false).2
        = [Event.finished_job jc.jid false]
    ∧ (∀ j, (j ∈ st.pending_jobs ∨ j ∈ st.queued_jobs) →
        ((j ∈ (handle_completion true false st jc.jid false).1.pending_jobs
            ∨ j ∈ (handle_completion true false st jc.jid false).1.queued_jobs)
          ∧ lifecycle_of j.jid (handle_completion true false st jc.jid false).2
              = [])
        ∨ ((∃ d f, lifecycle_of j.jid
              (handle_completion true false st jc.jid false).2
              = [Event.abandoned_job j.jid (AbandonReason.dep_failed d f)])
           ∧ j.jid ∉ live_jids (handle_completion true false st jc.jid false).1))
    ∧ (∀ x, x ∉ live_jids st →
        lifecycle_of x (handle_completion true false st jc.jid false).2 = []
        ∧ x ∉ live_jids (handle_completion true false st jc.jid false).1)
    ∧ WFst (handle_completion true false st jc.jid false).1
    ∧ jc.jid ∉ live_jids (handle_completion true false st jc.jid false).1 := by
  obtain ⟨hndP, hndQ, hndR, hjcP, hjcQ, hjcR, hPQ, hPR, hQR⟩ :=
    wf_destruct st jc rest hact hwf
  rw [handle_completion_eq_dep st jc.jid]
  have hsurv_sub : List.Sublist
      (abandon_deps_loop jc.jid [jc.jid] st.pending_jobs).2.2 st.pending_jobs :=
    abandon_deps_loop_pending_sublist jc.jid _ [jc.jid] st.pending_jobs
      (le_refl _)
  have hsurv_mem : ∀ k ∈ (abandon_deps_loop jc.jid [jc.jid] st.pending_jobs).2.2,
      k ∈ st.pending_jobs := fun k hk => hsurv_sub.mem hk
  have hA_mem : ∀ k ∈ (abandon_deps_loop jc.jid [jc.jid] st.pending_jobs).1,
      k ∈ st.pending_jobs := fun k hk =>
    abandon_deps_loop_result_mem jc.jid _ [jc.jid] st.pending_jobs
      (le_refl _) k hk
  have hexcl : ∀ k ∈ (abandon_deps_loop jc.jid [jc.jid] st.pending_jobs).1,
      k ∉ (abandon_deps_loop jc.jid [jc.jid] st.pending_jobs).2.2 := fun k hk =>
    abandon_deps_loop_exclusive jc.jid _ [jc.jid] st.pending_jobs
      (le_refl _) k hk
  have hpart : ∀ j ∈ st.pending_jobs,
      j ∈ (abandon_deps_loop jc.jid [jc.jid] st.pending_jobs).1
      ∨ j ∈ (abandon_deps_loop jc.jid [jc.jid] st.pending_jobs).2.2 := fun j hj =>
    abandon_deps_loop_partition jc.jid _ [jc.jid] st.pending_jobs
      (le_refl _) j hj
  have hproj : ∀ x,
      ((∀ j ∈ (abandon_deps_loop jc.jid [jc.jid] st.pending_jobs).1, j.jid ≠ x) →
        lifecycle_of x (abandon_deps_loop jc.jid [jc.jid] st.pending_jobs).2.1 = [])
      ∧ (∀ j ∈ (abandon_deps_loop jc.jid [jc.jid] st.pending_jobs).1, j.jid = x →
          ∃ aid, lifecycle_of x
            (abandon_deps_loop jc.jid [jc.jid] st.pending_jobs).2.1
            = [Event.abandoned_job x (AbandonReason.dep_failed aid jc.jid)]) :=
    fun x => abandon_deps_loop_events_proj jc.jid _ [jc.jid] st.pending_jobs
      (le_refl _) hndP x
  have hsplit1 := split_sub_left (fun j => j.all_deps_completed
    (dict_set st.completed_jobs jc.jid false))
    (abandon_deps_loop jc.jid [jc.jid] st.pending_jobs).2.2
  have hsplit2 := split_sub_right (fun j => j.all_deps_completed
    (dict_set st.completed_jobs jc.jid false))
    (abandon_deps_loop jc.jid [jc.jid] st.pending_jobs).2.2
  have hlive : ∀ x, x ∈ live_jids
      ({ pending_jobs := (split (fun j => j.all_deps_completed
            (dict_set st.completed_jobs jc.jid false))
            (abandon_deps_loop jc.jid [jc.jid] st.pending_jobs).2.2).2
        , queued_jobs := st.queued_jobs ++ (split (fun j => j.all_deps_completed
            (dict_set st.completed_jobs jc.jid false))
            (abandon_deps_loop jc.jid [jc.jid] st.pending_jobs).2.2).1
        , active_jobs := st.active_jobs.filter (fun j => !(j.jid == jc.jid))
        , completed_jobs := dict_set st.completed_jobs jc.jid false
        , abandoned_jobs := st.abandoned_jobs
            ++ (abandon_deps_loop jc.jid [jc.jid] st.pending_jobs).1 } :
        ExecutorState) →
      x ∈ ((abandon_deps_loop jc.jid [jc.jid] st.pending_jobs).2.2).map Job.jid
      ∨ x ∈ st.queued_jobs.map Job.jid ∨ x ∈ rest.map Job.jid := by
    intro x hx
    rcases (mem_live_iff _ x).mp hx with h | h | h
    · exact Or.inl (mem_map_jid_sub hsplit2 h)
    · have h' : x ∈ (st.queued_jobs
          ++ (split (fun j => j.all_deps_completed
            (dict_set st.completed_jobs jc.jid false))
            (abandon_deps_loop jc.jid [jc.jid] st.pending_jobs).2.2).1).map
          Job.jid := h
      rcases List.mem_map.mp h' with ⟨j, hj, hjx⟩
      rcases List.mem_append.mp hj with h1 | h1
      · exact Or.inr (Or.inl (hjx ▸ List.mem_map_of_mem Job.jid h1))
      · exact Or.inl (hjx ▸ List.mem_map_of_mem Job.jid (hsplit1 j h1))
    · have h' : x ∈ (st.active_jobs.filter
          (fun j => !(j.jid == jc.jid))).map Job.jid := h
      rw [active_filter_eq st jc rest hact hjcR] at h'
      exact Or.inr (Or.inr h')
  refine ⟨active_filter_eq st jc rest hact hjcR, ?_, ?_, ?_, ?_, ?_⟩
  · show lifecycle_of jc.jid (Event.finished_job jc.jid false :: _) = _
    have hnil1 : lifecycle_of jc.jid
        (abandon_deps_loop jc.jid [jc.jid] st.pending_jobs).2.1 = [] :=
      (hproj jc.jid).1 (fun k hk hcon =>
        hjcP (hcon ▸ List.mem_map_of_mem Job.jid (hA_mem k hk)))
    rw [lifecycle_of_cons_pos jc.jid _ _
      (by show (jc.jid == jc.jid) = true; exact beq_self_eq_true jc.jid)]
    rw [lifecycle_of_append, hnil1, lifecycle_of_queued_map]
    rfl
  · intro j hj
    rcases hj with hjp | hjq
    · rcases hpart j hjp with hA | hS
      · refine Or.inr ⟨?_, ?_⟩
        · obtain ⟨aid, haid⟩ := (hproj j.jid).2 j hA rfl
          refine ⟨aid, jc.jid, ?_⟩
          have hne : jc.jid ≠ j.jid := by
            intro hcon
            exact hjcP (hcon ▸ List.mem_map_of_mem Job.jid hjp)
          show lifecycle_of j.jid (Event.finished_job jc.jid false :: _) = _
          rw [lifecycle_of_cons_neg j.jid _ _
            (by show (jc.jid == j.jid) = false
                exact beq_eq_false_iff_ne.mpr hne)]
          rw [lifecycle_of_append, haid, lifecycle_of_queued_map]
          rfl
        · intro hcon
          rcases hlive j.jid hcon with h | h | h
          · rcases List.mem_map.mp h with ⟨j', hj', hj'x⟩
            have hj'j : j' = j := jid_inj hndP j' (hsurv_mem j' hj') j hjp hj'x
            exact hexcl j hA (hj'j ▸ hj')
          · exact hPQ j hjp h
          · exact hPR j hjp h
      · refine Or.inl ⟨?_, ?_⟩
        · rcases split_mem_or (fun j => j.all_deps_completed
              (dict_set st.completed_jobs jc.jid false))
              (abandon_deps_loop jc.jid [jc.jid] st.pending_jobs).2.2 j hS
            with h | h
          · exact Or.inr (List.mem_append_right _ h)
          · exact Or.inl h
        · have hne : jc.jid ≠ j.jid := by
            intro hcon
            exact hjcP (hcon ▸ List.mem_map_of_mem Job.jid hjp)
          have hnil1 : lifecycle_of j.jid
              (abandon_deps_loop jc.jid [jc.jid] st.pending_jobs).2.1 = [] := by
            apply (hproj j.jid).1
            intro k hk hcon
            have hkj : k = j := jid_inj hndP k (hA_mem k hk) j hjp hcon
            exact hexcl j (hkj ▸ hk) hS
          show lifecycle_of j.jid (Event.finished_job jc.jid false :: _) = _
          rw [lifecycle_of_cons_neg j.jid _ _
            (by show (jc.jid == j.jid) = false
                exact beq_eq_false_iff_ne.mpr hne)]
          rw [lifecycle_of_append, hnil1, lifecycle_of_queued_map]
          rfl
    · refine Or.inl ⟨Or.inr (List.mem_append_left _ hjq), ?_⟩
      have hne : jc.jid ≠ j.jid := by
        intro hcon
        exact hjcQ (hcon ▸ List.mem_map_of_mem Job.jid hjq)
      have hnil1 : lifecycle_of j.jid
          (abandon_deps_loop jc.jid [jc.jid] st.pending_jobs).2.1 = [] := by
        apply (hproj j.jid).1
        intro k hk hcon
        exact hPQ k (hA_mem k hk) (hcon ▸ List.mem_map_of_mem Job.jid hjq)
      show lifecycle_of j.jid (Event.finished_job jc.jid false :: _) = _
      rw [lifecycle_of_cons_neg j.jid _ _
        (by show (jc.jid == j.jid) = false
            exact beq_eq_false_iff_ne.mpr hne)]
      rw [lifecycle_of_append, hnil1, lifecycle_of_queued_map]
      rfl
  · intro x hx
    have hne : jc.jid ≠ x := by
      intro hcon
      apply hx
      rw [mem_live_iff, hact]
      exact Or.inr (Or.inr (hcon ▸ List.mem_map_of_mem Job.jid
        (List.mem_cons_self jc rest)))
    constructor
    · have hnil1 : lifecycle_of x
          (abandon_deps_loop jc.jid [jc.jid] st.pending_jobs).2.1 = [] := by
        apply (hproj x).1
        intro k hk hcon
        apply hx
        rw [mem_live_iff]
        exact Or.inl (hcon ▸ List.mem_map_of_mem Job.jid (hA_mem k hk))
      show lifecycle_of x (Event.finished_job jc.jid false :: _) = _
      rw [lifecycle_of_cons_neg x _ _
        (by show (jc.jid == x) = false; exact beq_eq_false_iff_ne.mpr hne)]
      rw [lifecycle_of_append, hnil1, lifecycle_of_queued_map]
      rfl
    · intro hcon
      apply hx
      rw [mem_live_iff, hact]
      rcases hlive x hcon with h | h | h
      · exact Or.inl (mem_map_jid_sub hsurv_mem h)
      · exact Or.inr (Or.inl h)
      · exact Or.inr (Or.inr (List.map_cons Job.jid jc rest ▸
          List.mem_cons_of_mem jc.jid h))
  · show (live_jids _).Nodup
    unfold live_jids
    have hnodup0 : ((st.pending_jobs ++ st.queued_jobs ++ rest).map
        Job.jid).Nodup := by
      have hw : WFst st := hwf
      unfold WFst live_jids at hw
      rw [hact] at hw
      exact hw.sublist ((((List.Sublist.refl st.pending_jobs).append
        (List.Sublist.refl st.queued_jobs)).append
        (List.sublist_cons_self jc rest)).map Job.jid)
    have h1 := nodup_replace_pending hsurv_sub hnodup0
    have h2 := promo_nodup (abandon_deps_loop jc.jid [jc.jid] st.pending_jobs).2.2
      st.queued_jobs rest
      (fun j => j.all_deps_completed (dict_set st.completed_jobs jc.jid false)) h1
    show ((_ ++ (st.queued_jobs ++ _) ++ (st.active_jobs.filter _)).map
      Job.jid).Nodup
    rw [active_filter_eq st jc rest hact hjcR]
    exact h2
  · intro hcon
    rcases hlive jc.jid hcon with h | h | h
    · exact hjcP (mem_map_jid_sub hsurv_mem h)
    · exact hjcQ h
    · exact hjcR h

/-- Every lifecycle event emitted by `handle_completion` is tagged
with the completed job's id or with the jid of a pending or queued
job. -/
theorem handle_completion_events_jids (cof cwd : Bool) (st : ExecutorState)
    (job_id : String) (succ : Bool) :
    ∀ e ∈ (handle_completion cof cwd st job_id succ).2, ∀ x,
      lifecycle_event x e = true →
      x = job_id ∨ x ∈ st.pending_jobs.map Job.jid
        ∨ x ∈ st.queued_jobs.map Job.jid := by
  have hfin : ∀ x, lifecycle_event x (Event.finished_job job_id succ) = true →
      x = job_id := by
    intro x h
    have : (job_id == x) = true := h
    exact (eq_of_beq this).symm
  have hqueued : ∀ (l : List Job) (e : Event),
      e ∈ l.map (fun j => Event.queued_job j.jid) → ∀ x,
      lifecycle_event x e = true → False := by
    intro l e he x h
    rcases List.mem_map.mp he with ⟨j, _, hje⟩
    rw [← hje] at h
    simp [lifecycle_event] at h
  cases succ with
  | true =>
      rw [handle_completion_eq_success cof cwd st job_id]
      intro e he x h
      rcases List.mem_cons.mp he with h1 | h1
      · exact Or.inl (hfin x (h1 ▸ h))
      · exact (hqueued _ e h1 x h).elim
  | false =>
      cases cof with
      | false =>
          rw [handle_completion_eq_peer cwd st job_id]
          intro e he x h
          rcases List.mem_cons.mp he with h1 | h1
          · exact Or.inl (hfin x (h1 ▸ h))
          · rcases List.mem_map.mp h1 with ⟨j, hj, hje⟩
            rw [← hje] at h
            have hx : (j.jid == x) = true := h
            have hx' : x = j.jid := (eq_of_beq hx).symm
            rcases List.mem_append.mp hj with h2 | h2
            · exact Or.inr (Or.inr (hx' ▸ List.mem_map_of_mem Job.jid h2))
            · exact Or.inr (Or.inl (hx' ▸ List.mem_map_of_mem Job.jid h2))
      | true =>
          cases cwd with
          | false =>
              rw [handle_completion_eq_dep st job_id]
              intro e he x h
              rcases List.mem_cons.mp he with h1 | h1
              · exact Or.inl (hfin x (h1 ▸ h))
              · rcases List.mem_append.mp h1 with h2 | h2
                · obtain ⟨j, aid, hje, hjmem, _, _⟩ :=
                    abandon_deps_loop_events job_id _ [job_id] st.pending_jobs
                      (le_refl _) e h2
                  rw [hje] at h
                  have hx : (j.jid == x) = true := h
                  have hx' : x = j.jid := (eq_of_beq hx).symm
                  exact Or.inr (Or.inl (hx' ▸ List.mem_map_of_mem Job.jid
                    (abandon_deps_loop_result_mem job_id _ [job_id]
                      st.pending_jobs (le_refl _) j hjmem)))
                · exact (hqueued _ e h2 x h).elim
          | true =>
              rw [handle_completion_eq_nodeps st job_id]
              intro e he x h
              rcases List.mem_cons.mp he with h1 | h1
              · exact Or.inl (hfin x (h1 ▸ h))
              · exact (hqueued _ e h1 x h).elim

/-- Projection emptiness of `handle_completion`'s events for a jid
that is neither the completed job's nor a pending or queued job's. -/
theorem handle_completion_foreign_proj (cof cwd : Bool) (st : ExecutorState)
    (job_id : String) (succ : Bool) (x : String)
    (hx1 : x ≠ job_id) (hx2 : x ∉ st.pending_jobs.map Job.jid)
    (hx3 : x ∉ st.queued_jobs.map Job.jid) :
    lifecycle_of x (handle_completion cof cwd st job_id succ).2 = [] := by
  apply List.filter_eq_nil_iff.mpr
  intro e he
  intro hcon
  rcases handle_completion_events_jids cof cwd st job_id succ e he x hcon
    with h | h | h
  · exact hx1 h
  · exact hx2 h
  · exact hx3 h

/-- Dispatch of the four policy branches of `handle_completion`: in
every branch, the completed job contributes exactly its FINISHED_JOB
event; a queued or pending job either stays live and silent or is
abandoned with a single PEER_FAILED or DEP_FAILED event and leaves the
live set; foreign jids stay foreign and silent; well-formedness is
preserved; the completed job's jid leaves the live set. -/
theorem handle_completion_proj (cof cwd : Bool) (st : ExecutorState) (jc : Job)
    (rest : List Job) (succ : Bool)
    (hact : st.active_jobs = jc :: rest) (hwf : WFst st) :
    (handle_completion cof cwd st jc.jid succ).1.active_jobs = rest
    ∧ lifecycle_of jc.jid (handle_completion cof cwd st jc.jid succ).2
        = [Event.finished_job jc.jid succ]
    ∧ (∀ j, (j ∈ st.pending_jobs ∨ j ∈ st.queued_jobs) →
        ((j ∈ (handle_completion cof cwd st jc.jid succ).1.pending_jobs
            ∨ j ∈ (handle_completion cof cwd st jc.jid succ).1.queued_jobs)
          ∧ lifecycle_of j.jid (handle_completion cof cwd st jc.jid succ).2 = [])
        ∨ (((∃ p, lifecycle_of j.jid (handle_completion cof cwd st jc.jid succ).2
              = [Event.abandoned_job j.jid (AbandonReason.peer_failed p)])
            ∨ (∃ d f, lifecycle_of j.jid
                (handle_completion cof cwd st jc.jid succ).2
              = [Event.abandoned_job j.jid (AbandonReason.dep_failed d f)]))
           ∧ j.jid ∉ live_jids (handle_completion cof cwd st jc.jid succ).1))
    ∧ (∀ x, x ∉ live_jids st →
        lifecycle_of x (handle_completion cof cwd st jc.jid succ).2 = []
        ∧ x ∉ live_jids (handle_completion cof cwd st jc.jid succ).1)
    ∧ WFst (handle_completion cof cwd st jc.jid succ).1
    ∧ jc.jid ∉ live_jids (handle_completion cof cwd st jc.jid succ).1 := by
  cases succ with
  | true =>
      obtain ⟨h1, h2, h3, h4, h5, h6⟩ := promo_result_proj st jc rest true hact hwf
      rw [handle_completion_eq_success cof cwd st jc.jid]
      exact ⟨h1, h2, fun j hj => Or.inl (h3 j hj), h4, h5, h6⟩
  | false =>
      cases cof with
      | false =>
          obtain ⟨h1, h2, h3, h4, h5, h6⟩ := peer_result_proj cwd st jc rest hact hwf
          exact ⟨h1, h2, fun j hj =>
            Or.inr ⟨Or.inl ⟨jc.jid, (h3 j hj).1⟩, (h3 j hj).2⟩, h4, h5, h6⟩
      | true =>
          cases cwd with
          | false =>
              obtain ⟨h1, h2, h3, h4, h5, h6⟩ := dep_result_proj st jc rest hact hwf
              refine ⟨h1, h2, fun j hj => ?_, h4, h5, h6⟩
              rcases h3 j hj with h | h
              · exact Or.inl h
              · exact Or.inr ⟨Or.inr h.1, h.2⟩
          | true =>
              obtain ⟨h1, h2, h3, h4, h5, h6⟩ :=
                promo_result_proj st jc rest false hact hwf
              rw [handle_completion_eq_nodeps st jc.jid]
              exact ⟨h1, h2, fun j hj => Or.inl (h3 j hj), h4, h5, h6⟩

/-- Per-jid characterization of a whole wait phase: every job of the
snapshot contributes its runtime events followed by its FINISHED_JOB
event and leaves the live set; every queued or pending job either
stays live and silent or is abandoned with exactly one event; foreign
jids stay foreign and silent; the wait phase empties the active set
and preserves well-formedness. -/
theorem process_completions_proj (cof cwd : Bool) :
    ∀ (snapshot : List Job) (st : ExecutorState),
      st.active_jobs = snapshot → WFst st →
      (∀ j ∈ snapshot,
        lifecycle_of j.jid (process_completions cof cwd snapshot st).2
          = (async_job j).1 ++ [Event.finished_job j.jid (async_job j).2])
      ∧ (∀ j, (j ∈ st.pending_jobs ∨ j ∈ st.queued_jobs) →
          ((j ∈ (process_completions cof cwd snapshot st).1.pending_jobs
              ∨ j ∈ (process_completions cof cwd snapshot st).1.queued_jobs)
            ∧ lifecycle_of j.jid (process_completions cof cwd snapshot st).2 = [])
          ∨ (((∃ p, lifecycle_of j.jid (process_completions cof cwd snapshot st).2
                = [Event.abandoned_job j.jid (AbandonReason.peer_failed p)])
              ∨ (∃ d f, lifecycle_of j.jid
                  (process_completions cof cwd snapshot st).2
                = [Event.abandoned_job j.jid (AbandonReason.dep_failed d f)]))
             ∧ j.jid ∉ live_jids (process_completions cof cwd snapshot st).1))
      ∧ (∀ x, x ∉ live_jids st →
          lifecycle_of x (process_completions cof cwd snapshot st).2 = []
          ∧ x ∉ live_jids (process_completions cof cwd snapshot st).1)
      ∧ WFst (process_completions cof cwd snapshot st).1
      ∧ (process_completions cof cwd snapshot st).1.active_jobs = []
      ∧ (∀ j ∈ snapshot,
          j.jid ∉ live_jids (process_completions cof cwd snapshot st).1) := by
  intro snapshot
  induction snapshot with
  | nil =>
      intro st hsnap hwf
      refine ⟨fun j hj => absurd hj (by simp), ?_, ?_, hwf, hsnap,
        fun j hj => absurd hj (by simp)⟩
      · intro jq hjq
        exact Or.inl ⟨hjq, rfl⟩
      · intro x hx
        exact ⟨rfl, hx⟩
  | cons j rest ih =>
      intro st hsnap hwf
      have hact : st.active_jobs = j :: rest := hsnap
      obtain ⟨hndP, hndQ, hndR, hjcP, hjcQ, hjcR, hPQ, hPR, hQR⟩ :=
        wf_destruct st j rest hact hwf
      obtain ⟨hcp1, hcp2, hcp3, hcp4, hcp5, hcp6⟩ :=
        handle_completion_proj cof cwd st j rest (async_job j).2 hact hwf
      obtain ⟨ih1, ih2, ih3, ih4, ih5, ih6⟩ :=
        ih (handle_completion cof cwd st j.jid (async_job j).2).1 hcp1 hcp5
      rw [process_completions_cons]
      have hproj_all : ∀ x,
          lifecycle_of x (status_event st ::
            ((async_job j).1
              ++ (handle_completion cof cwd st j.jid (async_job j).2).2
              ++ (process_completions cof cwd rest
                (handle_completion cof cwd st j.jid (async_job j).2).1).2))
          = lifecycle_of x (async_job j).1
            ++ lifecycle_of x (handle_completion cof cwd st j.jid
                (async_job j).2).2
            ++ lifecycle_of x (process_completions cof cwd rest
                (handle_completion cof cwd st j.jid (async_job j).2).1).2 := by
        intro x
        rw [lifecycle_of_cons_neg x _ _ (by cases st; rfl)]
        rw [lifecycle_of_append, lifecycle_of_append]
      have hrestP : ∀ a ∈ rest, a.jid ∉ st.pending_jobs.map Job.jid := by
        intro a ha hcon
        rcases List.mem_map.mp hcon with ⟨b, hb, hba⟩
        exact hPR b hb (hba ▸ List.mem_map_of_mem Job.jid ha)
      have hrestQ : ∀ a ∈ rest, a.jid ∉ st.queued_jobs.map Job.jid := by
        intro a ha hcon
        rcases List.mem_map.mp hcon with ⟨b, hb, hba⟩
        exact hQR b hb (hba ▸ List.mem_map_of_mem Job.jid ha)
      refine ⟨?_, ?_, ?_, ih4, ih5, ?_⟩
      · intro j' hj'
        rcases List.mem_cons.mp hj' with hj'j | hj'r
        · rw [hj'j]
          rw [hproj_all j.jid, (lifecycle_of_async j).1, hcp2,
            (ih3 j.jid hcp6).1]
          simp
        · have hne : j.jid ≠ j'.jid := by
            intro hcon
            exact hjcR (hcon ▸ List.mem_map_of_mem Job.jid hj'r)
          rw [hproj_all j'.jid, (lifecycle_of_async j).2 j'.jid hne,
            handle_completion_foreign_proj cof cwd st j.jid (async_job j).2
              j'.jid (Ne.symm hne) (hrestP j' hj'r) (hrestQ j' hj'r),
            ih1 j' hj'r]
          simp
      · intro jq hjq
        have hne : j.jid ≠ jq.jid := by
          intro hcon
          rcases hjq with h | h
          · exact hjcP (hcon ▸ List.mem_map_of_mem Job.jid h)
          · exact hjcQ (hcon ▸ List.mem_map_of_mem Job.jid h)
        rcases hcp3 jq hjq with ⟨hmem', hnil'⟩ | ⟨habn, hnl⟩
        · rcases ih2 jq hmem' with ⟨hm2, hn2⟩ | ⟨hab2, hnl2⟩
          · refine Or.inl ⟨hm2, ?_⟩
            rw [hproj_all jq.jid, (lifecycle_of_async j).2 jq.jid hne,
              hnil', hn2]
            rfl
          · refine Or.inr ⟨?_, hnl2⟩
            rcases hab2 with ⟨p, hp⟩ | ⟨d, f, hdf⟩
            · refine Or.inl ⟨p, ?_⟩
              rw [hproj_all jq.jid, (lifecycle_of_async j).2 jq.jid hne,
                hnil', hp]
              rfl
            · refine Or.inr ⟨d, f, ?_⟩
              rw [hproj_all jq.jid, (lifecycle_of_async j).2 jq.jid hne,
                hnil', hdf]
              rfl
        · have h5 := ih3 jq.jid hnl
          refine Or.inr ⟨?_, h5.2⟩
          rcases habn with ⟨p, hp⟩ | ⟨d, f, hdf⟩
          · refine Or.inl ⟨p, ?_⟩
            rw [hproj_all jq.jid, (lifecycle_of_async j).2 jq.jid hne,
              hp, h5.1]
            simp
          · refine Or.inr ⟨d, f, ?_⟩
            rw [hproj_all jq.jid, (lifecycle_of_async j).2 jq.jid hne,
              hdf, h5.1]
            simp
      · intro x hx
        have hne : j.jid ≠ x := by
          intro hcon
          apply hx
          rw [mem_live_iff, hact]
          exact Or.inr (Or.inr (hcon ▸ List.mem_map_of_mem Job.jid
            (List.mem_cons_self j rest)))
        have h4 := hcp4 x hx
        have h5 := ih3 x h4.2
        refine ⟨?_, h5.2⟩
        rw [hproj_all x, (lifecycle_of_async j).2 x hne, h4.1, h5.1]
        rfl
      · intro j' hj'
        rcases List.mem_cons.mp hj' with hj'j | hj'r
        · rw [hj'j]
          exact (ih3 j.jid hcp6).2
        · exact ih6 j' hj'r

/-- jid-level disjointness is symmetric. -/
theorem disj_symm {A B : List Job}
    (h : ∀ a ∈ A, a.jid ∉ B.map Job.jid) :
    ∀ b ∈ B, b.jid ∉ A.map Job.jid := by
  intro b hb hcon
  rcases List.mem_map.mp hcon with ⟨a, ha, haj⟩
  exact h a ha (haj ▸ List.mem_map_of_mem Job.jid hb)

/-- Unpacking the well-formedness of a state into componentwise
distinctness and pairwise disjointness. -/
theorem wf_parts (st : ExecutorState) (hwf : WFst st) :
    ((st.pending_jobs.map Job.jid).Nodup)
    ∧ ((st.queued_jobs.map Job.jid).Nodup)
    ∧ ((st.active_jobs.map Job.jid).Nodup)
    ∧ (∀ a ∈ st.pending_jobs, a.jid ∉ st.queued_jobs.map Job.jid)
    ∧ (∀ a ∈ st.pending_jobs, a.jid ∉ st.active_jobs.map Job.jid)
    ∧ (∀ a ∈ st.queued_jobs, a.jid ∉ st.active_jobs.map Job.jid) := by
  unfold WFst live_jids at hwf
  simp only [List.map_append, List.nodup_append] at hwf
  obtain ⟨⟨hndP, hndQ, hPQ⟩, hndA, hPQA⟩ := hwf
  refine ⟨hndP, hndQ, hndA, ?_, ?_, ?_⟩
  · intro a ha hcon
    exact hPQ (List.mem_map_of_mem Job.jid ha) hcon
  · intro a ha hcon
    exact hPQA (List.mem_append_left _ (List.mem_map_of_mem Job.jid ha)) hcon
  · intro a ha hcon
    exact hPQA (List.mem_append_right _ (List.mem_map_of_mem Job.jid ha)) hcon

/-- The activation phase only moves a prefix of the queue into the
active list; well-formedness is preserved. -/
theorem wf_activate (st : ExecutorState) (taken q2 : List Job)
    (hq : st.queued_jobs = taken ++ q2) (hwf : WFst st) :
    WFst { st with
           queued_jobs := q2,
           active_jobs := st.active_jobs ++ taken } := by
  unfold WFst live_jids at hwf ⊢
  apply List.Perm.nodup _ hwf
  apply List.Perm.map Job.jid
  rw [hq]
  show List.Perm (st.pending_jobs ++ (taken ++ q2) ++ st.active_jobs)
    (st.pending_jobs ++ q2 ++ (st.active_jobs ++ taken))
  have h1 : List.Perm ((taken ++ q2) ++ st.active_jobs)
      (q2 ++ (st.active_jobs ++ taken)) := by
    have e1 : List.Perm (taken ++ q2) (q2 ++ taken) := List.perm_append_comm
    have e2 : List.Perm ((taken ++ q2) ++ st.active_jobs)
        ((q2 ++ taken) ++ st.active_jobs) := List.Perm.append_right _ e1
    have e3 : List.Perm (q2 ++ (taken ++ st.active_jobs))
        (q2 ++ (st.active_jobs ++ taken)) :=
      List.Perm.append_left q2 List.perm_append_comm
    refine e2.trans ?_
    rw [List.append_assoc]
    exact e3
  have h2 : List.Perm (st.pending_jobs ++ ((taken ++ q2) ++ st.active_jobs))
      (st.pending_jobs ++ (q2 ++ (st.active_jobs ++ taken))) :=
    List.Perm.append_left st.pending_jobs h1
  simpa [List.append_assoc] using h2

/-- The terminal lifecycle shapes of a job that was queued or pending:
it either runs to completion (full trace) or is abandoned with a
single PEER_FAILED or DEP_FAILED event. -/
def TerminalShape (j : Job) (evs : List Event) : Prop :=
  evs = job_full_trace j
  ∨ (∃ p, evs = [Event.abandoned_job j.jid (AbandonReason.peer_failed p)])
  ∨ (∃ d f, evs = [Event.abandoned_job j.jid (AbandonReason.dep_failed d f)])

/-- Per-jid characterization of a full main-loop run: every pending or
queued job ends in a terminal shape, every active job contributes its
runtime events and FINISHED_JOB, foreign jids see no event. -/
theorem main_loop_proj (mj : Nat) (cof cwd : Bool) :
    ∀ (fuel : Nat) (st stF : ExecutorState) (evs : List Event),
      main_loop mj cof cwd fuel st = some (stF, evs) →
      WFst st →
      (∀ j, (j ∈ st.pending_jobs ∨ j ∈ st.queued_jobs) →
        TerminalShape j (lifecycle_of j.jid evs))
      ∧ (∀ j ∈ st.active_jobs,
          lifecycle_of j.jid evs
            = (async_job j).1 ++ [Event.finished_job j.jid (async_job j).2])
      ∧ (∀ x, x ∉ live_jids st → lifecycle_of x evs = []) := by
  intro fuel
  induction fuel with
  | zero =>
      intro st stF evs h
      rw [main_loop_zero] at h
      cases h
  | succ k ih =>
      intro st stF evs h hwf
      by_cases hz : st.active_jobs.length + st.queued_jobs.length
          + st.pending_jobs.length = 0
      · rw [main_loop_exit mj cof cwd k st hz] at h
        cases h
        have hp : st.pending_jobs = [] := by
          apply List.length_eq_zero.mp
          omega
        have hq : st.queued_jobs = [] := by
          apply List.length_eq_zero.mp
          omega
        have ha : st.active_jobs = [] := by
          apply List.length_eq_zero.mp
          omega
        refine ⟨?_, ?_, fun x _ => rfl⟩
        · intro j hj
          rw [hp, hq] at hj
          rcases hj with h | h <;> simp at h
        · intro j hj
          rw [ha] at hj
          simp at hj
      · rw [main_loop_step mj cof cwd k st hz] at h
        obtain ⟨taken, htk1, htk2, htk3⟩ :=
          activate_loop_spec mj st.queued_jobs st.active_jobs
        obtain ⟨hndP, hndQ, hndA, hPQ, hPA, hQA⟩ := wf_parts st hwf
        have htksub : ∀ t ∈ taken, t ∈ st.queued_jobs := by
          intro t ht
          rw [htk1]
          exact List.mem_append_left _ ht
        have hq2sub : ∀ t ∈ (activate_loop mj st.queued_jobs st.active_jobs).1,
            t ∈ st.queued_jobs := by
          intro t ht
          rw [htk1]
          exact List.mem_append_right _ ht
        have hwf1 : WFst { st with
            queued_jobs := (activate_loop mj st.queued_jobs st.active_jobs).1
            , active_jobs := (activate_loop mj st.queued_jobs st.active_jobs).2.1 } := by
          rw [htk2]
          exact wf_activate st taken _ htk1 hwf
        have hndtk : ((taken.map Job.jid).Nodup) := by
          rw [htk1, List.map_append] at hndQ
          exact (List.nodup_append.mp hndQ).1
        have hstart := start_events_proj
        obtain ⟨pc1, pc2, pc3, pc4, pc5, pc6⟩ :=
          process_completions_proj cof cwd
            (activate_loop mj st.queued_jobs st.active_jobs).2.1
            { st with
              queued_jobs := (activate_loop mj st.queued_jobs st.active_jobs).1
              , active_jobs := (activate_loop mj st.queued_jobs st.active_jobs).2.1 }
            rfl hwf1
        cases hrec : main_loop mj cof cwd k (loop_step mj cof cwd st).1 with
        | none => rw [hrec] at h; cases h
        | some res2 =>
            rw [hrec] at h
            obtain ⟨stF2, evs3⟩ := res2
            have hp := Option.some.inj h
            have hevs : (loop_step mj cof cwd st).2 ++ evs3 = evs :=
              congrArg Prod.snd hp
            subst hevs
            obtain ⟨ihh1, ihh2, ihh3⟩ := ih (loop_step mj cof cwd st).1 stF2 evs3
              hrec pc4
            have hstep2 : (loop_step mj cof cwd st).2
                = start_events taken
                  ++ (process_completions cof cwd
                      (activate_loop mj st.queued_jobs st.active_jobs).2.1
                      { st with
                        queued_jobs :=
                          (activate_loop mj st.queued_jobs st.active_jobs).1
                        , active_jobs :=
                          (activate_loop mj st.queued_jobs st.active_jobs).2.1 }).2 := by
              show (activate_loop mj st.queued_jobs st.active_jobs).2.2 ++ _ = _
              rw [htk3]
            have hstep1 : (loop_step mj cof cwd st).1
                = (process_completions cof cwd
                    (activate_loop mj st.queued_jobs st.active_jobs).2.1
                    { st with
                      queued_jobs :=
                        (activate_loop mj st.queued_jobs st.active_jobs).1
                      , active_jobs :=
                        (activate_loop mj st.queued_jobs st.active_jobs).2.1 }).1 := rfl
            rw [hstep1] at ihh1 ihh2 ihh3
            have hprojsplit : ∀ x,
                lifecycle_of x ((loop_step mj cof cwd st).2 ++ evs3)
                = lifecycle_of x (start_events taken)
                  ++ lifecycle_of x (process_completions cof cwd
                      (activate_loop mj st.queued_jobs st.active_jobs).2.1
                      { st with
                        queued_jobs :=
                          (activate_loop mj st.queued_jobs st.active_jobs).1
                        , active_jobs :=
                          (activate_loop mj st.queued_jobs st.active_jobs).2.1 }).2
                  ++ lifecycle_of x evs3 := by
              intro x
              rw [hstep2, lifecycle_of_append, lifecycle_of_append]
            have hmemtaken : ∀ t ∈ taken,
                t ∈ (activate_loop mj st.queued_jobs st.active_jobs).2.1 := by
              intro t ht
              rw [htk2]
              exact List.mem_append_right _ ht
            refine ⟨?_, ?_, ?_⟩
            · intro j hj
              rcases hj with hjp | hjq
              · have hjtk : j.jid ∉ taken.map Job.jid := by
                  intro hcon
                  rcases List.mem_map.mp hcon with ⟨t, ht, htj⟩
                  exact hPQ j hjp (htj ▸ List.mem_map_of_mem Job.jid
                    (htksub t ht))
                have hs1 : lifecycle_of j.jid (start_events taken) = [] :=
                  (hstart j.jid taken hndtk).1 hjtk
                rcases pc2 j (Or.inl hjp) with ⟨hm2, hn2⟩ | ⟨hab2, hnl2⟩
                · have hterm := ihh1 j hm2
                  rw [hprojsplit j.jid, hs1, hn2]
                  simpa using hterm
                · have hr3 : lifecycle_of j.jid evs3 = [] := ihh3 j.jid hnl2
                  rw [hprojsplit j.jid, hs1, hr3]
                  rcases hab2 with ⟨p, hp⟩ | ⟨d, f, hdf⟩
                  · exact Or.inr (Or.inl ⟨p, by rw [hp]; rfl⟩)
                  · exact Or.inr (Or.inr ⟨d, f, by rw [hdf]; rfl⟩)
              · rw [htk1] at hjq
                rcases List.mem_append.mp hjq with hjt | hjq2
                · have hs1 : lifecycle_of j.jid (start_events taken)
                      = [Event.started_job j.jid, Event.started_stage j.jid
                          "activate"] :=
                    (hstart j.jid taken hndtk).2 j hjt rfl
                  have hasync := pc1 j (hmemtaken j hjt)
                  have hr3 : lifecycle_of j.jid evs3 = [] :=
                    ihh3 j.jid (pc6 j (hmemtaken j hjt))
                  rw [hprojsplit j.jid, hs1, hasync, hr3]
                  refine Or.inl ?_
                  simp [job_full_trace]
                · have hjtk : j.jid ∉ taken.map Job.jid := by
                    rw [htk1, List.map_append] at hndQ
                    have hdisj := (List.nodup_append.mp hndQ).2.2
                    intro hcon
                    exact hdisj hcon (List.mem_map_of_mem Job.jid hjq2)
                  have hs1 : lifecycle_of j.jid (start_events taken) = [] :=
                    (hstart j.jid taken hndtk).1 hjtk
                  rcases pc2 j (Or.inr hjq2) with ⟨hm2, hn2⟩ | ⟨hab2, hnl2⟩
                  · have hterm := ihh1 j hm2
                    rw [hprojsplit j.jid, hs1, hn2]
                    simpa using hterm
                  · have hr3 : lifecycle_of j.jid evs3 = [] := ihh3 j.jid hnl2
                    rw [hprojsplit j.jid, hs1, hr3]
                    rcases hab2 with ⟨p, hp⟩ | ⟨d, f, hdf⟩
                    · exact Or.inr (Or.inl ⟨p, by rw [hp]; rfl⟩)
                    · exact Or.inr (Or.inr ⟨d, f, by rw [hdf]; rfl⟩)
            · intro j hj
              have hjtk : j.jid ∉ taken.map Job.jid := by
                intro hcon
                rcases List.mem_map.mp hcon with ⟨t, ht, htj⟩
                exact hQA t (htksub t ht) (by
                  rw [htj]
                  exact List.mem_map_of_mem Job.jid hj)
              have hs1 : lifecycle_of j.jid (start_events taken) = [] :=
                (hstart j.jid taken hndtk).1 hjtk
              have hjact : j ∈ (activate_loop mj st.queued_jobs
                  st.active_jobs).2.1 := by
                rw [htk2]
                exact List.mem_append_left _ hj
              have hasync := pc1 j hjact
              have hr3 : lifecycle_of j.jid evs3 = [] :=
                ihh3 j.jid (pc6 j hjact)
              rw [hprojsplit j.jid, hs1, hasync, hr3]
              simp
            · intro x hx
              have hxtk : x ∉ taken.map Job.jid := by
                intro hcon
                apply hx
                rw [mem_live_iff]
                exact Or.inr (Or.inl (mem_map_jid_sub htksub hcon))
              have hs1 : lifecycle_of x (start_events taken) = [] :=
                (hstart x taken hndtk).1 hxtk
              have hx1 : x ∉ live_jids { st with
                  queued_jobs := (activate_loop mj st.queued_jobs
                    st.active_jobs).1
                  , active_jobs := (activate_loop mj st.queued_jobs
                    st.active_jobs).2.1 } := by
                intro hcon
                apply hx
                rw [mem_live_iff] at hcon ⊢
                rcases hcon with h | h | h
                · exact Or.inl h
                · exact Or.inr (Or.inl (mem_map_jid_sub hq2sub h))
                · rw [htk2, List.map_append] at h
                  rcases List.mem_append.mp h with h1 | h1
                  · exact Or.inr (Or.inr h1)
                  · exact Or.inr (Or.inl (mem_map_jid_sub htksub h1))
              have h3 := pc3 x hx1
              have hr3 : lifecycle_of x evs3 = [] := ihh3 x h3.2
              rw [hprojsplit x, hs1, h3.1, hr3]
              rfl

/-- A stage dispatch emits only STDOUT/STDERR chunk events, never a
STARTED_STAGE. -/
theorem run_stage_no_started_stage (jid : String) (s : Stage) :
    ∀ e ∈ (run_stage jid s).1, ∀ x l, e ≠ Event.started_stage x l := by
  intro e he x l
  unfold run_stage at he
  cases hs : s.outcome with
  | ret code =>
      rw [hs] at he
      simp only [List.mem_map] at he
      obtain ⟨c, _, hc⟩ := he
      rw [← hc]
      by_cases h1 : c.1 = true <;> simp [h1]
  | raised tb =>
      rw [hs] at he
      simp only [List.mem_append, List.mem_map, List.mem_singleton] at he
      rcases he with ⟨c, _, hc⟩ | hc
      · rw [← hc]
        by_cases h1 : c.1 = true <;> simp [h1]
      · rw [hc]
        simp

/-- Every STARTED_STAGE occurrence in the runtime's stage-loop trace
is followed, within the trace, by a FINISHED_STAGE carrying the same
label: the loop emits STARTED_STAGE, the dispatch chunks and the
matching FINISHED_STAGE as one uninterrupted group
(`executor.py` lines 66-106). -/
theorem async_stages_matched (jid : String) (cof : Bool) :
    ∀ (stages : List Stage) (acc : Bool) (lbl : String)
      (pre post : List Event),
      (async_job_stages jid cof stages acc).1
        = pre ++ Event.started_stage jid lbl :: post →
      ∃ s rc, Event.finished_stage jid lbl s rc ∈ post := by
  intro stages
  induction stages with
  | nil =>
      intro acc lbl pre post h
      simp [async_job_stages] at h
  | cons s rest ih =>
      intro acc lbl pre post h
      by_cases hb : (cof && !acc) = true
      · rw [async_job_stages, if_pos hb] at h
        simp at h
      · rw [async_job_stages_cons jid cof s rest acc
          (Bool.not_eq_true _ ▸ hb)] at h
        have h' : Event.started_stage jid s.label ::
            ((run_stage jid s).1 ++
              Event.finished_stage jid s.label ((run_stage jid s).2 == 0)
                (run_stage jid s).2 ::
              (async_job_stages jid cof rest
                (acc && ((run_stage jid s).2 == 0))).1)
            = pre ++ Event.started_stage jid lbl :: post := h
        cases pre with
        | nil =>
            rw [List.nil_append] at h'
            injection h' with h1 h2
            injection h1 with _ hlbl
            refine ⟨((run_stage jid s).2 == 0), (run_stage jid s).2, ?_⟩
            rw [← h2, ← hlbl]
            exact List.mem_append_right _ (List.mem_cons_self _ _)
        | cons e0 pre' =>
            rw [List.cons_append] at h'
            injection h' with h1 h2
            rcases List.append_eq_append_iff.mp h2 with
              ⟨a2, hc2, hb2⟩ | ⟨c2, hr2, hd2⟩
            · cases a2 with
              | nil =>
                  rw [List.nil_append] at hb2
                  injection hb2 with hx _
                  exact Event.noConfusion hx
              | cons e2 a2' =>
                  rw [List.cons_append] at hb2
                  injection hb2 with _ h3
                  exact ih _ lbl a2' post h3
            · cases c2 with
              | nil =>
                  rw [List.nil_append] at hd2
                  injection hd2 with hx _
                  exact Event.noConfusion hx
              | cons e2 c2' =>
                  rw [List.cons_append] at hd2
                  injection hd2 with h3 h4
                  exact absurd h3.symm
                    (run_stage_no_started_stage jid s e2
                      (by rw [hr2]
                          exact List.mem_append_right _
                            (List.mem_cons_self _ _))
                      jid lbl)

/-- Every STARTED_STAGE with a label other than the scheduler's
'activate' marker in a full job trace is followed by a FINISHED_STAGE
with the same label. -/
theorem job_full_trace_matched (j : Job) (lbl : String)
    (pre post : List Event) (hlbl : lbl ≠ "activate")
    (h : job_full_trace j = pre ++ Event.started_stage j.jid lbl :: post) :
    ∃ s rc, Event.finished_stage j.jid lbl s rc ∈ post := by
  unfold job_full_trace at h
  cases pre with
  | nil =>
      rw [List.nil_append] at h
      injection h with h1 _
      exact Event.noConfusion h1
  | cons e0 pre1 =>
      rw [List.cons_append] at h
      injection h with _ h2
      cases pre1 with
      | nil =>
          rw [List.nil_append] at h2
          injection h2 with h3 _
          injection h3 with _ h4
          exact absurd h4.symm hlbl
      | cons e1 pre2 =>
          rw [List.cons_append] at h2
          injection h2 with _ h3
          rcases List.append_eq_append_iff.mp h3 with
            ⟨a2, hc2, hb2⟩ | ⟨c2, hr2, hd2⟩
          · cases a2 with
            | nil =>
                rw [List.nil_append] at hb2
                injection hb2 with hx _
                exact Event.noConfusion hx
            | cons e2 a2' =>
                rw [List.cons_append] at hb2
                injection hb2 with _ h4
                exact absurd h4.symm (by simp)
          · cases c2 with
            | nil =>
                rw [List.nil_append] at hd2
                injection hd2 with hx _
                exact Event.noConfusion hx
            | cons e2 c2' =>
                rw [List.cons_append] at hd2
                injection hd2 with h4 h5
                have hasync : (async_job j).1
                    = pre2 ++ Event.started_stage j.jid lbl :: c2' := by
                  rw [hr2, ← h4]
                unfold async_job at hasync
                obtain ⟨s, rc, hm⟩ := async_stages_matched j.jid
                  j.continue_on_failure j.stages true lbl pre2 c2' hasync
                exact ⟨s, rc, by rw [h5]; exact List.mem_append_left _ hm⟩

/-- The jobs whose deps all resolve in the job map, as split at
`execute_jobs` initialization (`executor.py` lines 146-150). -/
@[reducible] def init_good (jobs : List Job) : List Job :=
  (split (fun j => j.deps.all
    (fun d => (jobs.map Job.jid).contains d)) jobs).1

/-- The jobs with a dep outside the job map, abandoned at
initialization. -/
@[reducible] def init_missing (jobs : List Job) : List Job :=
  (split (fun j => j.deps.all
    (fun d => (jobs.map Job.jid).contains d)) jobs).2

/-- The ABANDONED_JOB / MISSING_DEPS events emitted at
initialization, in input order. -/
@[reducible] def init_missing_events (jobs : List Job) : List Event :=
  (init_missing jobs).map (fun j =>
    Event.abandoned_job j.jid
      (AbandonReason.missing_deps
        (j.deps.filter (fun d => !(jobs.map Job.jid).contains d))))

/-- The scheduler state entering the main loop: no-dep jobs queued,
the rest pending. -/
@[reducible] def init_state (jobs : List Job) : ExecutorState :=
  { pending_jobs := (split (fun j => j.deps.length == 0) (init_good jobs)).2
    , queued_jobs := (split (fun j => j.deps.length == 0) (init_good jobs)).1
    , active_jobs := []
    , completed_jobs := []
    , abandoned_jobs := init_missing jobs }

/-- `execute_jobs` in terms of the named initialization pieces. -/
theorem execute_jobs_unfold (mj fuel : Nat) (jobs : List Job)
    (cof cwd : Bool) :
    execute_jobs mj fuel jobs cof cwd =
      match main_loop mj cof cwd fuel (init_state jobs) with
      | none => none
      | some (stF, evs) =>
          some (init_missing_events jobs ++ evs ++ [status_event stF],
            stF.completed_jobs.all (fun p => p.2)) := rfl

/-- Distinct input jids make the initial scheduler state
well-formed. -/
theorem init_state_wf (jobs : List Job)
    (hnd : (jobs.map Job.jid).Nodup) : WFst (init_state jobs) := by
  have hgoodnd : ((init_good jobs).map Job.jid).Nodup :=
    hnd.sublist (List.Sublist.map Job.jid (List.filter_sublist jobs))
  have hperm : List.Perm
      ((split (fun j => j.deps.length == 0) (init_good jobs)).2
        ++ (split (fun j => j.deps.length == 0) (init_good jobs)).1)
      (init_good jobs) :=
    List.Perm.trans List.perm_append_comm
      (List.filter_append_perm _ (init_good jobs))
  show (((split (fun j => j.deps.length == 0) (init_good jobs)).2
      ++ (split (fun j => j.deps.length == 0) (init_good jobs)).1
      ++ ([] : List Job)).map Job.jid).Nodup
  rw [List.append_nil]
  exact (hperm.map Job.jid).symm.nodup hgoodnd

/-- C4: the claim orders ALL events carrying a given job_id as
STARTED_JOB, then (STARTED_STAGE, chunks, FINISHED_STAGE) groups with
every STARTED_STAGE matched by a FINISHED_STAGE of the same label,
then FINISHED_JOB -- or a single ABANDONED_JOB.  Two corrections are
required (see the counterexample): QUEUED_JOB also carries the job_id
and precedes STARTED_JOB, and the scheduler emits an extra
STARTED_STAGE 'activate' (`executor.py` line 168) right after
STARTED_JOB that no FINISHED_STAGE ever matches.  Amended and proved
here: for distinct input jids, in every terminating `execute_jobs`
trace the lifecycle events (STARTED_JOB, STARTED_STAGE,
STDOUT/STDERR, FINISHED_STAGE, FINISHED_JOB, ABANDONED_JOB) of each
submitted job form exactly one of (i) a single ABANDONED_JOB with
reason MISSING_DEPS listing the unresolved deps, (ii) the full trace
STARTED_JOB, STARTED_STAGE 'activate', the runtime's stage groups,
FINISHED_JOB, (iii) a single ABANDONED_JOB with reason PEER_FAILED,
or (iv) a single ABANDONED_JOB with reason DEP_FAILED; and in a full
trace every STARTED_STAGE with a label other than 'activate' is
followed by a FINISHED_STAGE with the same label. -/
theorem c4_per_job_event_order :
    (∀ (mj fuel : Nat) (jobs : List Job) (cof cwd : Bool)
        (tr : List Event) (ret : Bool),
      ((jobs.map Job.jid).Nodup) →
      execute_jobs mj fuel jobs cof cwd = some (tr, ret) →
      ∀ j ∈ jobs,
        lifecycle_of j.jid tr
          = [Event.abandoned_job j.jid (AbandonReason.missing_deps
              (j.deps.filter (fun d => !(jobs.map Job.jid).contains d)))]
        ∨ lifecycle_of j.jid tr = job_full_trace j
        ∨ (∃ p, lifecycle_of j.jid tr
            = [Event.abandoned_job j.jid (AbandonReason.peer_failed p)])
        ∨ (∃ d f, lifecycle_of j.jid tr
            = [Event.abandoned_job j.jid (AbandonReason.dep_failed d f)]))
    ∧ (∀ (j : Job) (lbl : String) (pre post : List Event),
        lbl ≠ "activate" →
        job_full_trace j = pre ++ Event.started_stage j.jid lbl :: post →
        ∃ s rc, Event.finished_stage j.jid lbl s rc ∈ post) := by
  constructor
  · intro mj fuel jobs cof cwd tr ret hnd hexec j hj
    rw [execute_jobs_unfold] at hexec
    cases hml : main_loop mj cof cwd fuel (init_state jobs) with
    | none => rw [hml] at hexec; cases hexec
    | some res =>
        rw [hml] at hexec
        obtain ⟨stF, evsL⟩ := res
        have hp := Option.some.inj hexec
        have htr : init_missing_events jobs ++ evsL ++ [status_event stF]
            = tr := congrArg Prod.fst hp
        subst htr
        have hwf0 := init_state_wf jobs hnd
        obtain ⟨m1, _, m3⟩ := main_loop_proj mj cof cwd fuel
          (init_state jobs) stF evsL hml hwf0
        have hstat : ∀ x, lifecycle_of x [status_event stF] = [] := by
          intro x
          rw [lifecycle_of_cons_neg x (status_event stF) [] rfl]
          rfl
        rcases split_mem_or (fun j => j.deps.all
            (fun d => (jobs.map Job.jid).contains d)) jobs j hj with
          hgood | hmiss
        · have hmissnil : lifecycle_of j.jid (init_missing_events jobs)
              = [] := by
            apply lifecycle_of_map_nil j.jid
              (fun k => Event.abandoned_job k.jid
                (AbandonReason.missing_deps
                  (k.deps.filter
                    (fun d => !(jobs.map Job.jid).contains d))))
              (fun k y => rfl) (init_missing jobs)
            intro k hk hcon
            exact split_parts_disjoint hnd j hgood k hk hcon.symm
          have hterm : TerminalShape j (lifecycle_of j.jid evsL) := by
            apply m1
            rcases split_mem_or (fun j => j.deps.length == 0)
                (init_good jobs) j hgood with h | h
            · exact Or.inr h
            · exact Or.inl h
          rw [lifecycle_of_append, lifecycle_of_append, hmissnil,
            hstat j.jid]
          rcases hterm with h | ⟨p, h⟩ | ⟨d, f, h⟩
          · exact Or.inr (Or.inl
              (by rw [List.nil_append, List.append_nil, h]))
          · exact Or.inr (Or.inr (Or.inl ⟨p,
              by rw [List.nil_append, List.append_nil, h]⟩))
          · exact Or.inr (Or.inr (Or.inr ⟨d, f,
              by rw [List.nil_append, List.append_nil, h]⟩))
        · have hndm : ((init_missing jobs).map Job.jid).Nodup :=
            hnd.sublist
              (List.Sublist.map Job.jid (List.filter_sublist jobs))
          have hm : lifecycle_of j.jid (init_missing_events jobs)
              = [Event.abandoned_job j.jid (AbandonReason.missing_deps
                  (j.deps.filter
                    (fun d => !(jobs.map Job.jid).contains d)))] := by
            have hs := (lifecycle_of_map_single j.jid
              (fun k => Event.abandoned_job k.jid
                (AbandonReason.missing_deps
                  (k.deps.filter
                    (fun d => !(jobs.map Job.jid).contains d))))
              (fun k y => rfl) (init_missing jobs) hndm).2 j hmiss rfl
            rw [hs]
          have hlive0 : j.jid ∉ live_jids (init_state jobs) := by
            intro hcon
            rw [mem_live_iff] at hcon
            rcases hcon with h | h | h
            · rcases List.mem_map.mp h with ⟨k, hk, hkj⟩
              exact split_parts_disjoint hnd k
                (split_sub_right _ (init_good jobs) k hk) j hmiss hkj
            · rcases List.mem_map.mp h with ⟨k, hk, hkj⟩
              exact split_parts_disjoint hnd k
                (split_sub_left _ (init_good jobs) k hk) j hmiss hkj
            · simp at h
          have hevsnil : lifecycle_of j.jid evsL = [] := m3 j.jid hlive0
          rw [lifecycle_of_append, lifecycle_of_append, hm, hevsnil,
            hstat j.jid]
          exact Or.inl (by rw [List.append_nil, List.append_nil])
  · intro j lbl pre post hlbl h
    exact job_full_trace_matched j lbl pre post hlbl h

/-- The first job of the C4 chain: "A" with no deps and one
succeeding stage. -/
def c4_jobA : Job :=
  { jid := "A", deps := []
    , stages :=
        [{ label := "sA", outputs := [], outcome := StageOutcome.ret 0 }]
    , continue_on_failure := true }

/-- The second job of the C4 chain: "B" depends on "A". -/
def c4_jobB : Job :=
  { jid := "B", deps := ["A"]
    , stages :=
        [{ label := "sB", outputs := [], outcome := StageOutcome.ret 0 }]
    , continue_on_failure := true }

/-- The full trace of `execute_jobs 4 3 [c4_jobA, c4_jobB] false
false`. -/
def c4_trace : List Event :=
  [ Event.started_job "A", Event.started_stage "A" "activate"
    , Event.job_status ["B"] [] ["A"] [] []
    , Event.started_stage "A" "sA", Event.finished_stage "A" "sA" true 0
    , Event.finished_job "A" true, Event.queued_job "B"
    , Event.started_job "B", Event.started_stage "B" "activate"
    , Event.job_status [] [] ["B"] [("A", true)] []
    , Event.started_stage "B" "sB", Event.finished_stage "B" "sB" true 0
    , Event.finished_job "B" true
    , Event.job_status [] [] [] [("A", true), ("B", true)] [] ]

/-- C4, counterexample to the literal claim on the chain [A, B] run to
completion: (i) among the trace's events carrying job_id "B" the first
is QUEUED_JOB, not STARTED_JOB, and (ii) the trace contains
STARTED_STAGE 'activate' events (one per started job, emitted by the
scheduler at `executor.py` line 168) but not a single FINISHED_STAGE
with label 'activate', so not every STARTED_STAGE of a started job is
followed by a matching FINISHED_STAGE. -/
theorem c4_counterexample_queued_and_unmatched_activate :
    execute_jobs 4 3 [c4_jobA, c4_jobB] false false
      = some (c4_trace, true)
    ∧ (c4_trace.filter (carries_job_id "B")).head?
        = some (Event.queued_job "B")
    ∧ Event.started_stage "B" "activate" ∈ c4_trace
    ∧ c4_trace.filter (fun e => match e with
        | Event.finished_stage _ lbl _ _ => lbl == "activate"
        | _ => false) = [] :=
  ⟨rfl, by decide, by decide, by decide⟩

/-- Witness: the amended per-job ordering applied to job "B" of the
concrete chain, and the matched-stage part applied to stage "sA" of
job "A". -/
theorem c4_per_job_event_order_witness :
    (lifecycle_of c4_jobB.jid c4_trace
        = [Event.abandoned_job c4_jobB.jid (AbandonReason.missing_deps
            (c4_jobB.deps.filter
              (fun d => !([c4_jobA, c4_jobB].map Job.jid).contains d)))]
      ∨ lifecycle_of c4_jobB.jid c4_trace = job_full_trace c4_jobB
      ∨ (∃ p, lifecycle_of c4_jobB.jid c4_trace
          = [Event.abandoned_job c4_jobB.jid
              (AbandonReason.peer_failed p)])
      ∨ (∃ d f, lifecycle_of c4_jobB.jid c4_trace
          = [Event.abandoned_job c4_jobB.jid
              (AbandonReason.dep_failed d f)]))
    ∧ (∃ s rc, Event.finished_stage c4_jobA.jid "sA" s rc
        ∈ [Event.finished_stage "A" "sA" true 0,
           Event.finished_job "A" true]) :=
  ⟨c4_per_job_event_order.1 4 3 [c4_jobA, c4_jobB] false false c4_trace
      true (by decide) rfl c4_jobB
      (List.mem_cons_of_mem _ (List.mem_cons_self _ _)),
    c4_per_job_event_order.2 c4_jobA "sA"
      [Event.started_job "A", Event.started_stage "A" "activate"]
      [Event.finished_stage "A" "sA" true 0, Event.finished_job "A" true]
      (by decide) rfl⟩

end CatkinExec
